import Mathlib

/-!
Verification of the sitemap-sniffer crawler (`src/sitemap-sniffer/content.js`)
against its natural-language specification.

The JavaScript content script is shallowly embedded as executable Lean
definitions.  Pure string manipulation is modelled on `List Char`
(`String.data`); the mutable `state` object threaded through the crawl is the
`CrawlState` structure, passed and returned explicitly.  Browser facilities
that the script calls but does not define (the WHATWG `URL` constructor,
`fetch`, `DOMParser`, `DecompressionStream`, `chrome.storage`) are modelled as
follows:

* `URL` is modelled by `URLRec`/`parseAbsCore`/`URLRec.serialize`, a
  scheme://host/path?query#fragment parser that mirrors the WHATWG parser at
  the granularity the script relies on: input tab/newline stripping and
  whitespace trimming, lower-casing of scheme and host, rejection of
  absolute-looking URLs with an empty host, a synthesized "/" path, and
  relative-reference resolution against a base.  Percent-encoding and
  dot-segment normalization are not modelled.
* the network, the XML DOM parser, gzip decompression availability and the
  storage cache are fields of an `Env` record supplied per run; `env.parseXml`
  abstracts `DOMParser.parseFromString` as a function from the fetched text to
  the observations the script makes of the resulting document (parsererror
  presence, root element name, `<loc>` text contents).

Every definition is executable so that scenario theorems evaluate by `decide`.
-/

namespace Sitemapper

/-! ## Character and character-list helpers -/

/-- ASCII whitespace as treated by `String.prototype.trim` / `\s` for the
characters that can actually occur here. -/
def isWsChar (c : Char) : Bool :=
  c = ' ' || c = '\t' || c = '\n' || c = '\r'

def isAlphaC (c : Char) : Bool :=
  ('a' ≤ c && c ≤ 'z') || ('A' ≤ c && c ≤ 'Z')

def isDigitC (c : Char) : Bool :=
  '0' ≤ c && c ≤ '9'

/-- Lower-case an ASCII letter, leave everything else unchanged (the host and
scheme lower-casing done by the URL parser). -/
def lowerC : Char → Char
  | 'A' => 'a' | 'B' => 'b' | 'C' => 'c' | 'D' => 'd' | 'E' => 'e' | 'F' => 'f'
  | 'G' => 'g' | 'H' => 'h' | 'I' => 'i' | 'J' => 'j' | 'K' => 'k' | 'L' => 'l'
  | 'M' => 'm' | 'N' => 'n' | 'O' => 'o' | 'P' => 'p' | 'Q' => 'q' | 'R' => 'r'
  | 'S' => 's' | 'T' => 't' | 'U' => 'u' | 'V' => 'v' | 'W' => 'w' | 'X' => 'x'
  | 'Y' => 'y' | 'Z' => 'z'
  | c => c

def lowerCL (l : List Char) : List Char := l.map lowerC

/-- Remove leading whitespace. -/
def dropWs (l : List Char) : List Char := l.dropWhile isWsChar

/-- `String.prototype.trim` on a character list. -/
def trimCL (l : List Char) : List Char :=
  (dropWs (dropWs l.reverse).reverse)

/-- WHATWG URL preprocessing: remove every tab, LF and CR from the input. -/
def stripCtl (l : List Char) : List Char :=
  l.filter (fun c => !(c = '\t' || c = '\n' || c = '\r'))

/-- Does `l` start with `s`? -/
def leadsCL : List Char → List Char → Bool
  | [], _ => true
  | _ :: _, [] => false
  | a :: as, b :: bs => a = b && leadsCL as bs

/-- Does `l` end with `s`? -/
def endsCL (s l : List Char) : Bool := leadsCL s.reverse l.reverse

/-- Does `l` contain `n` as a contiguous run (JS `String.prototype.includes`)? -/
def hasSubCL (n : List Char) : List Char → Bool
  | [] => leadsCL n []
  | c :: t => leadsCL n (c :: t) || hasSubCL n t

def lowerStr (s : String) : String := ⟨lowerCL s.data⟩

def trimStr (s : String) : String := ⟨trimCL s.data⟩

def endsWithStr (suff s : String) : Bool := endsCL suff.data s.data

def hasSubStr (n s : String) : Bool := hasSubCL n.data s.data

def startsWithStr (p s : String) : Bool := leadsCL p.data s.data

/-! ## The URL model

A minimal executable model of the WHATWG `URL` class as used by the script:
`new URL(input)`, `new URL(input, base)`, `.pathname` read/write,
`.toString()`. -/

structure URLRec where
  scheme : List Char
  host : List Char
  path : List Char
  query : List Char
  frag : List Char
  deriving DecidableEq

/-- Characters allowed in a scheme after the first (which must be a letter). -/
def schemeChar (c : Char) : Bool :=
  isAlphaC c || isDigitC c || c = '+' || c = '-' || c = '.'

/-- Split `scheme://rest`; fails when the input does not start with a
syntactically valid scheme followed by `://`. -/
def splitScheme (l : List Char) : Option (List Char × List Char) :=
  match l.takeWhile schemeChar, l.drop (l.takeWhile schemeChar).length with
  | c :: cs, ':' :: '/' :: '/' :: r =>
      if isAlphaC c then some (c :: cs, r) else none
  | _, _ => none

def hostChar (c : Char) : Bool :=
  !(c = '/' || c = '?' || c = '#')

/-- Split the part after the host into path, query and fragment. -/
def splitPathQF (rest : List Char) : List Char × List Char × List Char :=
  let p := rest.takeWhile (fun c => !(c = '?' || c = '#'))
  let r := rest.drop p.length
  let q := r.takeWhile (fun c => !(c = '#'))
  let f := r.drop q.length
  (if p = [] then ['/'] else p, q, f)

/-- Parse an absolute URL from an already-preprocessed character list. -/
def parseAbsCore (l : List Char) : Option URLRec :=
  match splitScheme l with
  | none => none
  | some (sc, rest) =>
    let h := rest.takeWhile hostChar
    if h = [] || h.any (fun c => c = ' ') then none
    else
      let rest2 := rest.drop h.length
      let (p, q, f) := splitPathQF rest2
      some { scheme := lowerCL sc, host := lowerCL h, path := p, query := q, frag := f }

def preprocessCL (l : List Char) : List Char := trimCL (stripCtl l)

def URLRec.serialize (u : URLRec) : List Char :=
  u.scheme ++ (':' :: '/' :: '/' :: u.host) ++ u.path ++ u.query ++ u.frag

def URLRec.toStr (u : URLRec) : String := ⟨u.serialize⟩

/-- Resolve a relative reference `l` against base `b` (no dot-segment
normalization, mirroring the subset of WHATWG resolution the script relies
on). -/
def resolveRel (b : URLRec) (l : List Char) : URLRec :=
  match l with
  | [] => { b with frag := [] }
  | '/' :: '/' :: r =>
      match parseAbsCore (b.scheme ++ (':' :: '/' :: '/' :: r)) with
      | some u => u
      | none => b
  | '/' :: r =>
      let (p, q, f) := splitPathQF ('/' :: r)
      { b with path := p, query := q, frag := f }
  | '?' :: r =>
      let q := ('?' :: r).takeWhile (fun c => !(c = '#'))
      let f := ('?' :: r).drop q.length
      { b with query := q, frag := f }
  | '#' :: r => { b with frag := '#' :: r }
  | _ =>
      let dir := (b.path.reverse.dropWhile (fun c => !(c = '/'))).reverse
      let (p, q, f) := splitPathQF (dir ++ l)
      { b with path := p, query := q, frag := f }

/-- `safeUrl(u, base)` from content.js: `try { return new URL(u, base) } catch
{ return null }`. -/
def safeUrl (s : String) (base : Option String) : Option URLRec :=
  let l := preprocessCL s.data
  match parseAbsCore l with
  | some u => some u
  | none =>
    match splitScheme l with
    | some _ => none
    | none =>
      match base with
      | none => none
      | some b =>
        match parseAbsCore (preprocessCL b.data) with
        | none => none
        | some bu => some (resolveRel bu l)

/-- `safeUrl(u, base)?.toString()`. -/
def safeUrlStr (s : String) (base : Option String) : Option String :=
  (safeUrl s base).map URLRec.toStr

/-! ## Crawl data model (content.js lines 5-43) -/

/-- `LIMITS` field shape. -/
structure Limits where
  maxDepth : Nat
  maxSitemapsFetched : Nat
  maxUrlsStored : Nat
  deriving DecidableEq

/-- `const LIMITS = { maxDepth: 3, maxSitemapsFetched: 30, maxUrlsStored: 10000 }`. -/
def LIMITS : Limits := { maxDepth := 3, maxSitemapsFetched := 30, maxUrlsStored := 10000 }

/-- `const TTL_MS = 6 * 60 * 60 * 1000`. -/
def TTL_MS : Nat := 6 * 60 * 60 * 1000

/-- A row of `state.tried`: `{ url, status, error? }`. -/
structure TriedRow where
  url : String
  status : Nat
  error : Option String
  deriving DecidableEq

/-- The mutable `state` object created in `scanAndStore` and threaded through
the crawl.  `urls` and `visitedSitemaps` are JS `Set`s of strings, modelled as
insertion-ordered duplicate-free lists. -/
structure CrawlState where
  origin : String
  urls : List String
  tried : List TriedRow
  errors : List String
  visitedSitemaps : List String
  sitemapsFetched : Nat
  primarySitemapUrl : Option String
  truncated : Bool
  limits : Limits
  deriving DecidableEq

/-- `errMsg(err)`: the script coerces a caught error to a message string; the
model carries the message directly and keeps the `|| "unknown error"`
fallback for an empty one. -/
def errMsg (m : String) : String := if m = "" then "unknown error" else m

/-- `pushError(state, message)`. -/
def pushError (st : CrawlState) (message : String) : CrawlState :=
  if message = "" then st else { st with errors := st.errors ++ [message] }

/-- `pushTried(state, url, status, error)`; `if (error)` drops a falsy
(absent or empty) error. -/
def pushTried (st : CrawlState) (url : String) (status : Nat)
    (error : Option String) : CrawlState :=
  let err := match error with
    | some e => if e = "" then none else some e
    | none => none
  { st with tried := st.tried ++ [{ url := url, status := status, error := err }] }

/-- `markTruncated(state)`. -/
def markTruncated (st : CrawlState) : CrawlState :=
  if st.truncated then st
  else pushError { st with truncated := true }
    ("URL list truncated at " ++ Nat.repr st.limits.maxUrlsStored ++ ".")

/-- JS `Set.prototype.add` on the insertion-ordered list model. -/
def setAdd (l : List String) (s : String) : List String :=
  if l.contains s then l else l ++ [s]

/-- The `url.pathname` rewrite of `normalizeUrl`: replace a trailing
`/index.html` by `/`. -/
def idxRewrite (url : URLRec) : URLRec :=
  if endsCL "/index.html".data url.path then
    { url with path := url.path.take (url.path.length - "/index.html".data.length) ++ ['/'] }
  else url

/-- `normalizeUrl(u)` (content.js lines 45-54): parse the trimmed input
without a base, rewrite a path ending in `/index.html` to end in `/`, and
serialize. -/
def normalizeUrl (u : String) : Option String :=
  match safeUrl (trimStr u) none with
  | none => none
  | some url => some (idxRewrite url).toStr

/-! ## Robots directive parsing (content.js lines 56-65) -/

/-- Split at every LF. -/
def splitOnLF : List Char → List (List Char)
  | [] => [[]]
  | '\n' :: rest => [] :: splitOnLF rest
  | c :: rest =>
    match splitOnLF rest with
    | [] => [[c]]
    | l :: ls => (c :: l) :: ls

/-- Drop a single trailing CR. -/
def dropTrailCR (l : List Char) : List Char :=
  match l.reverse with
  | '\r' :: r => r.reverse
  | _ => l

def mapButLast (f : List Char → List Char) : List (List Char) → List (List Char)
  | [] => []
  | [x] => [x]
  | x :: y :: xs => f x :: mapButLast f (y :: xs)

/-- Split on `/\r?\n/`: split at every LF, a CR immediately before the LF is
consumed with it (pieces other than the last one were LF-terminated). -/
def splitLines (l : List Char) : List (List Char) :=
  mapButLast dropTrailCR (splitOnLF l)

/-- First match of `/\s+#.*$/` removed: cut from the first whitespace run that
is immediately followed by `#`. -/
def stripComment : List Char → List Char
  | [] => []
  | c :: rest =>
    if isWsChar c then
      match dropWs rest with
      | '#' :: _ => []
      | _ => c :: stripComment rest
    else c :: stripComment rest

/-- Match one line against `/^\s*sitemap\s*:\s*(.+?)\s*$/i` and return the
capture (trimmed value after the colon), if any. -/
def matchSitemapLine (l : List Char) : Option (List Char) :=
  let l1 := dropWs l
  if leadsCL "sitemap".data (lowerCL l1) then
    let l2 := dropWs (l1.drop "sitemap".data.length)
    match l2 with
    | ':' :: r =>
      let cap := trimCL r
      if cap = [] then none else some cap
    | _ => none
  else none

/-- Dedup keeping first occurrences (`Array.from(new Set(out))`). -/
def dedupAux (seen : List String) : List String → List String
  | [] => []
  | x :: xs =>
    if seen.contains x then dedupAux seen xs
    else x :: dedupAux (seen ++ [x]) xs

def dedupList (l : List String) : List String := dedupAux [] l

/-- `parseRobotsForSitemaps(text)`. -/
def parseRobotsForSitemaps (text : String) : List String :=
  dedupList <| (splitLines text.data).filterMap fun line =>
    match matchSitemapLine line with
    | none => none
    | some cap =>
      let cleaned := trimCL (stripComment cap)
      if cleaned = [] then none else some (⟨cleaned⟩ : String)

/-- `candidateSitemapUrls(origin)` (content.js lines 67-76). -/
def candidateSitemapUrls (origin : String) : List String :=
  [ origin ++ "/sitemap.xml"
  , origin ++ "/sitemap_index.xml"
  , origin ++ "/sitemap-index.xml"
  , origin ++ "/sitemap.xml.gz"
  , origin ++ "/sitemap-index.xml.gz"
  , origin ++ "/sitemap_index.xml.gz" ]

/-! ## Environment: the browser facilities the script calls -/

/-- Outcome of `await res.arrayBuffer()` piped through
`new DecompressionStream("gzip")`: either the decompressed text or the thrown
error's message. -/
inductive GzipOutcome where
  | ok (text : String)
  | throws (msg : String)
  deriving DecidableEq

/-- An HTTP response as observed by the script: `status`, the
`content-encoding` header (`none` models a `null` from `headers.get`), the
`res.text()` body, and what gzip decompression of the raw body yields. -/
structure HttpResponse where
  status : Nat
  contentEncoding : Option String
  bodyText : String
  gzipResult : GzipOutcome
  deriving DecidableEq

/-- `res.ok`: status in the 200-299 range. -/
def resOk (r : HttpResponse) : Bool :=
  200 ≤ r.status && r.status ≤ 299

/-- Outcome of `await fetch(url, ...)`: a response or a thrown transport
error. -/
inductive FetchResult where
  | failure (msg : String)
  | success (r : HttpResponse)

/-- The observations `parseSitemapXml` makes of a `DOMParser` document:
whether a `parsererror` element is present, the root element's `localName`
and `tagName` (`none` models an absent `documentElement`), and the
`textContent` of each `<loc>` element in document order. -/
structure XmlDoc where
  parserError : Bool
  rootLocalName : Option String
  rootTagName : Option String
  locTexts : List (Option String)

/-- Result of `chrome.storage.local.get(key)`: a thrown error, or the
`scannedAt` stamp of the stored record for this origin (if any). -/
inductive CacheRead where
  | throws (msg : String)
  | value (scannedAt : Option Nat)

/-- The world a single run of the content script executes against. -/
structure Env where
  origin : String
  fetch : String → FetchResult
  parseXml : String → XmlDoc
  decompressionAvailable : Bool
  cacheRead : CacheRead
  now : Nat

/-! ## TransportDecoder (content.js lines 78-100) -/

/-- JS `a || b` on string-or-null values: `none` and `""` are falsy. -/
def jsOrS (a : Option String) (b : String) : String :=
  match a with
  | none => b
  | some s => if s = "" then b else s

/-- `responseToSitemapText(res, sitemapUrl, state)`: returns the sitemap text
(`none` models a `null` return) together with the updated state. -/
def responseToSitemapText (env : Env) (res : HttpResponse) (sitemapUrl : String)
    (st : CrawlState) : Option String × CrawlState :=
  let encoding := lowerStr (jsOrS res.contentEncoding "")
  let looksGzip := hasSubStr "gzip" encoding || endsWithStr ".gz" (lowerStr sitemapUrl)
  if !looksGzip then (some res.bodyText, st)
  else if !env.decompressionAvailable then
    (none, pushError st
      ("Cannot parse gzip sitemap " ++ sitemapUrl ++ ": DecompressionStream unavailable."))
  else
    match res.gzipResult with
    | .ok t => (some t, st)
    | .throws e =>
      (none, pushError st
        ("Failed to decompress gzip sitemap " ++ sitemapUrl ++ ": " ++ errMsg e))

/-! ## SitemapDocumentParser (content.js lines 102-139) -/

inductive SitemapKind where
  | sitemapindex
  | urlset
  deriving DecidableEq

structure ParsedSitemap where
  kind : SitemapKind
  locs : List String
  deriving DecidableEq

/-- The `<loc>` collection loop of `parseSitemapXml` (lines 116-128): trim
each text node, skip empty ones, resolve against the sitemap's own URL,
record a diagnostic and skip on resolution failure. -/
def collectLocs (sitemapUrl : String) :
    List (Option String) → CrawlState → List String × CrawlState
  | [], st => ([], st)
  | t :: rest, st =>
    match t.map trimStr with
    | none => collectLocs sitemapUrl rest st
    | some raw =>
      if raw = "" then collectLocs sitemapUrl rest st
      else
        match safeUrlStr raw (some sitemapUrl) with
        | none =>
          collectLocs sitemapUrl rest
            (pushError st ("Invalid <loc> in " ++ sitemapUrl ++ ": " ++ raw))
        | some resolved =>
          let (ls, st') := collectLocs sitemapUrl rest st
          (resolved :: ls, st')

/-- `parseSitemapXml(xmlText, sitemapUrl, state)`. -/
def parseSitemapXml (env : Env) (xmlText sitemapUrl : String) (st : CrawlState) :
    Option ParsedSitemap × CrawlState :=
  let doc := env.parseXml xmlText
  if doc.parserError then
    (none, pushError st ("XML parse error in " ++ sitemapUrl ++ "."))
  else
    let rootName := lowerStr (jsOrS doc.rootLocalName (jsOrS doc.rootTagName ""))
    let (locs, st1) := collectLocs sitemapUrl doc.locTexts st
    if rootName = "sitemapindex" then (some { kind := .sitemapindex, locs := locs }, st1)
    else if rootName = "urlset" then (some { kind := .urlset, locs := locs }, st1)
    else (none, pushError st1 ("Unknown sitemap format at " ++ sitemapUrl ++ "."))

/-! ## RecursiveCrawler (content.js lines 141-221) -/

/-- Shared text of the fetch-ceiling diagnostic (lines 157, 210, 277). -/
def maxFetchedMsg (limits : Limits) : String :=
  "Max sitemaps fetched reached (" ++ Nat.repr limits.maxSitemapsFetched ++ ")."

/-- The `urlset` location loop (lines 189-199). -/
def addUrlsLoop : CrawlState → List String → CrawlState
  | st, [] => st
  | st, loc :: rest =>
    if st.limits.maxUrlsStored ≤ st.urls.length then markTruncated st
    else
      match normalizeUrl loc with
      | none => addUrlsLoop st rest
      | some n => addUrlsLoop { st with urls := setAdd st.urls n } rest

/-- The child-sitemap loop of an index (lines 208-220), parametrized by the
recursive step so that the crawler's recursion is structural on its fuel. -/
def crawlChildrenAux (step : String → CrawlState → CrawlState) :
    List String → CrawlState → CrawlState
  | [], st => st
  | c :: rest, st =>
    if st.limits.maxSitemapsFetched ≤ st.sitemapsFetched then
      pushError st (maxFetchedMsg st.limits)
    else
      let st1 := step c st
      if st1.limits.maxUrlsStored ≤ st1.urls.length then markTruncated st1
      else crawlChildrenAux step rest st1

/-- The body of `fetchAndParseSitemap(url, depth, state)` with the recursive
call abstracted as `recurse`. -/
def crawlNode (env : Env) (recurse : String → CrawlState → CrawlState)
    (url : String) (depth : Nat) (st : CrawlState) : CrawlState :=
  if st.limits.maxDepth < depth then
    pushError st ("Max sitemap depth exceeded at " ++ url ++ ".")
  else
    match safeUrlStr url (some st.origin) with
    | none =>
      pushTried (pushError st ("Invalid sitemap URL: " ++ url)) url 0 (some "invalid-url")
    | some sitemapUrl =>
      if st.visitedSitemaps.contains sitemapUrl then st
      else if st.limits.maxSitemapsFetched ≤ st.sitemapsFetched then
        pushError st (maxFetchedMsg st.limits)
      else
        let st1 := { st with
          visitedSitemaps := st.visitedSitemaps ++ [sitemapUrl],
          sitemapsFetched := st.sitemapsFetched + 1 }
        match env.fetch sitemapUrl with
        | .failure e =>
          pushError (pushTried st1 sitemapUrl 0 (some (errMsg e)))
            ("Fetch failed for " ++ sitemapUrl ++ ": " ++ errMsg e)
        | .success res =>
          let st2 := pushTried st1 sitemapUrl res.status none
          if !resOk res then
            pushError st2
              ("Sitemap fetch failed " ++ Nat.repr res.status ++ " for " ++ sitemapUrl ++ ".")
          else
            match responseToSitemapText env res sitemapUrl st2 with
            | (none, st3) => st3
            | (some xmlText, st3) =>
              -- `if (!xmlText) return;` also stops on an empty string
              if xmlText = "" then st3
              else
                match parseSitemapXml env xmlText sitemapUrl st3 with
                | (none, st4) => st4
                | (some parsed, st4) =>
                  let st5 :=
                    if st4.primarySitemapUrl.isNone then
                      { st4 with primarySitemapUrl := some sitemapUrl }
                    else st4
                  match parsed.kind with
                  | .urlset => addUrlsLoop st5 parsed.locs
                  | .sitemapindex =>
                    if st5.limits.maxDepth ≤ depth then
                      pushError st5
                        ("Max sitemap recursion depth reached at " ++ sitemapUrl ++ ".")
                    else crawlChildrenAux recurse parsed.locs st5

/-- `fetchAndParseSitemap`, made total with a fuel argument that bounds the
recursion depth.  The recursion is guarded in the source by
`depth >= state.limits.maxDepth`, so any fuel exceeding
`maxDepth - depth` makes the zero-fuel branch unreachable; every caller in
this file supplies `maxDepth + 1`. -/
def fetchAndParseSitemap (env : Env) : Nat → String → Nat → CrawlState → CrawlState
  | 0, url, depth, st => crawlNode env (fun _ s => s) url depth st
  | fuel + 1, url, depth, st =>
    crawlNode env (fun c s => fetchAndParseSitemap env fuel c (depth + 1) s) url depth st

/-! ## Orchestration and ResultAssembler (content.js lines 223-303) -/

structure PersistedRecord where
  origin : String
  found : Bool
  urlCount : Nat
  urls : List String
  scannedAt : Nat
  sitemapUrl : Option String
  tried : List TriedRow
  errors : List String
  truncated : Bool
  limits : Limits
  deriving DecidableEq

/-- The fresh state built at the top of `scanAndStore`. -/
def initState (origin : String) : CrawlState :=
  { origin := origin, urls := [], tried := [], errors := [], visitedSitemaps := []
  , sitemapsFetched := 0, primarySitemapUrl := none, truncated := false
  , limits := LIMITS }

/-- The robots.txt phase of `scanAndStore` (lines 250-268): returns the
resolved robots-derived sitemap URLs and the updated state. -/
def robotsPhase (env : Env) (st : CrawlState) : List String × CrawlState :=
  let robotsUrl := env.origin ++ "/robots.txt"
  match env.fetch robotsUrl with
  | .failure e =>
    ([], pushError (pushTried st robotsUrl 0 (some (errMsg e)))
      ("robots.txt fetch failed: " ++ errMsg e))
  | .success r =>
    let st1 := pushTried st robotsUrl r.status none
    if resOk r then
      ((parseRobotsForSitemaps r.bodyText).filterMap
        (fun s => safeUrlStr s (some env.origin)), st1)
    else
      ([], pushError st1 ("robots.txt fetch failed " ++ Nat.repr r.status ++ "."))

/-- The top-level candidate loop (lines 275-281). -/
def candidateLoop (env : Env) : List String → CrawlState → CrawlState
  | [], st => st
  | c :: rest, st =>
    if st.limits.maxSitemapsFetched ≤ st.sitemapsFetched then
      pushError st (maxFetchedMsg st.limits)
    else
      candidateLoop env rest
        (fetchAndParseSitemap env (st.limits.maxDepth + 1) c 0 st)

/-- The final `chrome.storage.local.set` payload (lines 286-302). -/
def assembleRecord (env : Env) (st : CrawlState) : PersistedRecord :=
  let urls := st.urls.take st.limits.maxUrlsStored
  let found := decide (0 < urls.length)
  { origin := st.origin
  , found := found
  , urlCount := urls.length
  , urls := urls
  , scannedAt := env.now
  , sitemapUrl := if found then st.primarySitemapUrl else none
  , tried := st.tried
  , errors := st.errors
  , truncated := st.truncated
  , limits := st.limits }

/-- The candidate-discovery-and-crawl body of `scanAndStore` (lines 249-302)
after the cache check. -/
def scanCore (env : Env) (st : CrawlState) : PersistedRecord :=
  let (robotsSitemaps, st1) := robotsPhase env st
  let sitemapCandidates :=
    if robotsSitemaps.isEmpty then candidateSitemapUrls env.origin else robotsSitemaps
  let uniqueCandidates := dedupList sitemapCandidates
  assembleRecord env (candidateLoop env uniqueCandidates st1)

/-- `scanAndStore()`: `none` models an early return with no record written
(non-http origin, or a fresh cached record). -/
def scanAndStore (env : Env) : Option PersistedRecord :=
  if !startsWithStr "http" env.origin then none
  else
    match env.cacheRead with
    | .value (some t) =>
      -- `record?.scannedAt && now() - record.scannedAt < TTL_MS`
      if t ≠ 0 ∧ env.now - t < TTL_MS then none
      else some (scanCore env (initState env.origin))
    | .value none => some (scanCore env (initState env.origin))
    | .throws e =>
      some (scanCore env
        (pushError (initState env.origin) ("Cache read failed: " ++ errMsg e)))

/-! ## Concrete worlds used by the scenario claims -/

/-- World for the robots-driven index scenario: robots.txt lists one index
sitemap; the index has two children, one a urlset of three product pages and
one answering 404. -/
def envShop : Env :=
  { origin := "https://shop.example"
  , fetch := fun u =>
      if u = "https://shop.example/robots.txt" then
        .success { status := 200, contentEncoding := none
                 , bodyText := "Sitemap: https://shop.example/sitemap_index.xml"
                 , gzipResult := .throws "unused" }
      else if u = "https://shop.example/sitemap_index.xml" then
        .success { status := 200, contentEncoding := none, bodyText := "INDEXDOC"
                 , gzipResult := .throws "unused" }
      else if u = "https://shop.example/products-a.xml" then
        .success { status := 200, contentEncoding := none, bodyText := "CHILDADOC"
                 , gzipResult := .throws "unused" }
      else if u = "https://shop.example/products-b.xml" then
        .success { status := 404, contentEncoding := none, bodyText := ""
                 , gzipResult := .throws "unused" }
      else .failure "unreachable host"
  , parseXml := fun t =>
      if t = "INDEXDOC" then
        { parserError := false, rootLocalName := some "sitemapindex"
        , rootTagName := some "sitemapindex"
        , locTexts := [ some "https://shop.example/products-a.xml"
                      , some "https://shop.example/products-b.xml" ] }
      else if t = "CHILDADOC" then
        { parserError := false, rootLocalName := some "urlset"
        , rootTagName := some "urlset"
        , locTexts := [ some "https://shop.example/p/1"
                      , some "https://shop.example/p/2"
                      , some "https://shop.example/p/3" ] }
      else { parserError := true, rootLocalName := none, rootTagName := none
           , locTexts := [] }
  , decompressionAvailable := true
  , cacheRead := .value none
  , now := 1700000000000 }

/-- C2: the record `scanAndStore` persists for the robots-driven
index scenario. -/
def shopRecord : PersistedRecord :=
  { origin := "https://shop.example"
  , found := true
  , urlCount := 3
  , urls := [ "https://shop.example/p/1", "https://shop.example/p/2"
            , "https://shop.example/p/3" ]
  , scannedAt := 1700000000000
  , sitemapUrl := some "https://shop.example/sitemap_index.xml"
  , tried :=
      [ { url := "https://shop.example/robots.txt", status := 200, error := none }
      , { url := "https://shop.example/sitemap_index.xml", status := 200, error := none }
      , { url := "https://shop.example/products-a.xml", status := 200, error := none }
      , { url := "https://shop.example/products-b.xml", status := 404, error := none } ]
  , errors := ["Sitemap fetch failed 404 for https://shop.example/products-b.xml."]
  , truncated := false
  , limits := LIMITS }

/-- World for the truncation scenario: a single urlset document carrying 10
distinct resolvable locations. -/
def envTen : Env :=
  { origin := "https://cap.example"
  , fetch := fun u =>
      if u = "https://cap.example/big.xml" then
        .success { status := 200, contentEncoding := none, bodyText := "BIGDOC"
                 , gzipResult := .throws "unused" }
      else .failure "unreachable host"
  , parseXml := fun t =>
      if t = "BIGDOC" then
        { parserError := false, rootLocalName := some "urlset"
        , rootTagName := some "urlset"
        , locTexts := [ some "https://cap.example/p/0", some "https://cap.example/p/1"
                      , some "https://cap.example/p/2", some "https://cap.example/p/3"
                      , some "https://cap.example/p/4", some "https://cap.example/p/5"
                      , some "https://cap.example/p/6", some "https://cap.example/p/7"
                      , some "https://cap.example/p/8", some "https://cap.example/p/9" ] }
      else { parserError := true, rootLocalName := none, rootTagName := none
           , locTexts := [] }
  , decompressionAvailable := true
  , cacheRead := .value none
  , now := 0 }

/-- Empty crawl state whose limits cap stored URLs at 5. -/
def stCap : CrawlState :=
  { initState "https://cap.example" with
    limits := { maxDepth := 3, maxSitemapsFetched := 30, maxUrlsStored := 5 } }

/-- A world in which every fetch throws: used to exercise guard behavior. -/
def deadEnv (origin : String) : Env :=
  { origin := origin
  , fetch := fun _ => .failure "network unreachable"
  , parseXml := fun _ =>
      { parserError := true, rootLocalName := none, rootTagName := none, locTexts := [] }
  , decompressionAvailable := false
  , cacheRead := .value none
  , now := 5 }

/-- A state that has already visited `https://a.example/s.xml`. -/
def stVisited : CrawlState :=
  { initState "https://a.example" with
    visitedSitemaps := ["https://a.example/s.xml"], sitemapsFetched := 1 }

/-- World for the silently-dropped robots directive: the robots.txt carries an
unresolvable `Sitemap: http://` directive next to a good one; the good sitemap
is a clean urlset. -/
def envBadDir : Env :=
  { origin := "https://e.x"
  , fetch := fun u =>
      if u = "https://e.x/robots.txt" then
        .success { status := 200, contentEncoding := none
                 , bodyText := "Sitemap: http://\nSitemap: https://e.x/s.xml"
                 , gzipResult := .throws "unused" }
      else if u = "https://e.x/s.xml" then
        .success { status := 200, contentEncoding := none, bodyText := "GOODDOC"
                 , gzipResult := .throws "unused" }
      else .failure "unreachable host"
  , parseXml := fun t =>
      if t = "GOODDOC" then
        { parserError := false, rootLocalName := some "urlset"
        , rootTagName := some "urlset", locTexts := [some "https://e.x/p"] }
      else { parserError := true, rootLocalName := none, rootTagName := none
           , locTexts := [] }
  , decompressionAvailable := true
  , cacheRead := .value none
  , now := 77 }

/-- Fallback record for `Option.getD` in closed witnesses. -/
def dRec : PersistedRecord :=
  { origin := "", found := false, urlCount := 0, urls := [], scannedAt := 0
  , sitemapUrl := none, tried := [], errors := [], truncated := false
  , limits := LIMITS }

/-! ## Invariants and well-formedness predicates -/

/-- The resource bounds of the crawl state (claim C1). -/
def Bounds (st : CrawlState) : Prop :=
  st.sitemapsFetched ≤ st.limits.maxSitemapsFetched ∧
  st.urls.length ≤ st.limits.maxUrlsStored

instance (st : CrawlState) : Decidable (Bounds st) := by
  unfold Bounds; exact inferInstance

/-- URLs are only accumulated after a primary sitemap URL has been recorded
(claim C10). -/
def PrimInv (st : CrawlState) : Prop :=
  st.urls = [] ∨ st.primarySitemapUrl.isSome = true

def headIs (d : Char) : List Char → Bool
  | [] => false
  | c :: _ => c = d

def headAlpha : List Char → Bool
  | [] => false
  | c :: _ => isAlphaC c

def noTabNL (l : List Char) : Bool :=
  l.all fun c => !(c = '\t' || c = '\n' || c = '\r')

/-- Well-formed URL records: exactly the shape `parseAbsCore` produces from a
preprocessed input, strong enough that serializing and reparsing is the
identity. -/
def WF (u : URLRec) : Prop :=
  headAlpha u.scheme = true ∧
  u.scheme.all schemeChar = true ∧
  lowerCL u.scheme = u.scheme ∧
  u.host ≠ [] ∧
  u.host.all hostChar = true ∧
  u.host.all (fun c => !(c = ' ')) = true ∧
  lowerCL u.host = u.host ∧
  headIs '/' u.path = true ∧
  u.path.all (fun c => !(c = '?' || c = '#')) = true ∧
  (u.query = [] ∨ headIs '?' u.query = true) ∧
  u.query.all (fun c => !(c = '#')) = true ∧
  (u.frag = [] ∨ headIs '#' u.frag = true) ∧
  noTabNL u.host = true ∧ noTabNL u.path = true ∧
  noTabNL u.query = true ∧ noTabNL u.frag = true ∧
  (u.path ++ u.query ++ u.frag).getLast? ≠ some ' '

/-- `st'` extends `st` by appended diagnostics only. -/
def ErrOnly (st st' : CrawlState) : Prop :=
  ∃ E, st' = { st with errors := st.errors ++ E }

end Sitemapper

/-! ## Claim theorems and supporting lemmas -/

/-- C2: for an origin whose robots.txt carries exactly one `Sitemap` directive
pointing at an index that lists a urlset child with 3 distinct resolvable
product URLs and a child answering 404, the scan persists `found = true`,
`urlCount = 3`, `sitemapUrl` equal to the index URL, exactly one 404
diagnostic, and a `tried` list of 4 entries in order: robots.txt, the index,
child A, child B. -/
theorem c2_robots_index_scenario :
    Sitemapper.scanAndStore Sitemapper.envShop = some Sitemapper.shopRecord := by
  decide

/-- C4: processing a urlset of 10 distinct resolvable locations under
`maxUrlsStored = 5`, starting from an empty `urls` set, stores exactly the
first 5 URLs, sets `truncated = true`, and pushes the truncation diagnostic
exactly once. -/
theorem c4_urlset_truncation_scenario :
    Sitemapper.fetchAndParseSitemap Sitemapper.envTen 4
        "https://cap.example/big.xml" 0 Sitemapper.stCap =
      { origin := "https://cap.example"
      , urls := [ "https://cap.example/p/0", "https://cap.example/p/1"
                , "https://cap.example/p/2", "https://cap.example/p/3"
                , "https://cap.example/p/4" ]
      , tried := [{ url := "https://cap.example/big.xml", status := 200, error := none }]
      , errors := ["URL list truncated at 5."]
      , visitedSitemaps := ["https://cap.example/big.xml"]
      , sitemapsFetched := 1
      , primarySitemapUrl := some "https://cap.example/big.xml"
      , truncated := true
      , limits := { maxDepth := 3, maxSitemapsFetched := 30, maxUrlsStored := 5 } } := by
  decide

namespace Sitemapper

/-! ## List and character lemmas -/

theorem takeWhile_all {α} {p : α → Bool} :
    ∀ {l : List α}, (∀ c ∈ l, p c = true) → l.takeWhile p = l := by
  intro l
  induction l with
  | nil => intro _; rfl
  | cons a t ih =>
    intro h
    rw [List.takeWhile_cons_of_pos (h a (List.mem_cons_self a t))]
    rw [ih fun c hc => h c (List.mem_cons_of_mem a hc)]

theorem takeWhile_append_stop {α} {p : α → Bool} {xs : List α} {d : α} {ys : List α}
    (hxs : ∀ c ∈ xs, p c = true) (hd : p d = false) :
    (xs ++ d :: ys).takeWhile p = xs := by
  induction xs with
  | nil => simpa [List.takeWhile_cons] using hd
  | cons a t ih =>
    rw [List.cons_append, List.takeWhile_cons_of_pos (hxs a (List.mem_cons_self a t))]
    rw [ih fun c hc => hxs c (List.mem_cons_of_mem a hc)]

theorem dropWhile_head_false {α} {p : α → Bool} :
    ∀ {l : List α} {c : α} {t : List α}, l.dropWhile p = c :: t → p c = false := by
  intro l
  induction l with
  | nil => intro c t h; simp [List.dropWhile] at h
  | cons a s ih =>
    intro c t h
    by_cases ha : p a = true
    · exact ih (by simpa [List.dropWhile_cons_of_pos ha] using h)
    · have hne : p a = false := by simpa using ha
      rw [List.dropWhile_cons_of_neg (by simp [hne])] at h
      cases h; exact hne

theorem dropWhile_eq_self_of_head {α} {p : α → Bool} {l : List α}
    (h : ∀ c, l.head? = some c → p c = false) : l.dropWhile p = l := by
  cases l with
  | nil => rfl
  | cons a t => exact List.dropWhile_cons_of_neg (by simp [h a rfl])

theorem mem_dropWhile {α} {p : α → Bool} {l : List α} {c : α}
    (h : c ∈ l.dropWhile p) : c ∈ l :=
  (List.dropWhile_sublist (l := l) p).mem h

theorem trimCL_eq_self {l : List Char}
    (h1 : ∀ c, l.head? = some c → isWsChar c = false)
    (h2 : ∀ c, l.getLast? = some c → isWsChar c = false) : trimCL l = l := by
  unfold trimCL dropWs
  rw [dropWhile_eq_self_of_head (l := l.reverse)
    (fun c hc => h2 c (by rwa [List.head?_reverse] at hc))]
  rw [List.reverse_reverse]
  exact dropWhile_eq_self_of_head h1

theorem trimCL_head_not {l : List Char} {c : Char} {t : List Char}
    (h : trimCL l = c :: t) : isWsChar c = false :=
  dropWhile_head_false h

theorem trimCL_getLast_not {l : List Char} {c : Char}
    (h : (trimCL l).getLast? = some c) : isWsChar c = false := by
  unfold trimCL dropWs at h
  set m := (l.reverse.dropWhile isWsChar).reverse with hm
  have hsuff : m.dropWhile isWsChar <:+ m := List.dropWhile_suffix _
  obtain ⟨pre, hpre⟩ := hsuff
  have hne : m.dropWhile isWsChar ≠ [] := by
    intro hnil; rw [hnil] at h; simp at h
  have hlast : m.getLast? = some c := by
    rw [← hpre, List.getLast?_append_of_ne_nil _ hne]; exact h
  have hhead : (l.reverse.dropWhile isWsChar).head? = some c := by
    rw [hm, List.getLast?_reverse] at hlast; exact hlast
  cases hd : l.reverse.dropWhile isWsChar with
  | nil => rw [hd] at hhead; simp at hhead
  | cons a t =>
    rw [hd] at hhead
    cases hhead
    exact dropWhile_head_false hd

theorem mem_trimCL {c : Char} {l : List Char} (h : c ∈ trimCL l) : c ∈ l := by
  unfold trimCL dropWs at h
  have h1 := mem_dropWhile h
  rw [List.mem_reverse] at h1
  have h2 := mem_dropWhile h1
  rwa [List.mem_reverse] at h2

theorem trimCL_idem (l : List Char) : trimCL (trimCL l) = trimCL l := by
  cases h : trimCL l with
  | nil => rfl
  | cons a t =>
    refine trimCL_eq_self ?_ ?_
    · intro c hc
      have hac : a = c := by simpa using hc
      subst hac
      exact trimCL_head_not h
    · intro c hc
      exact trimCL_getLast_not (l := l) (by rw [h]; exact hc)

theorem noTabNL_iff {l : List Char} :
    noTabNL l = true ↔ ∀ c ∈ l, (!(c = '\t' || c = '\n' || c = '\r')) = true := by
  unfold noTabNL; exact List.all_eq_true

theorem stripCtl_eq_self {l : List Char} (h : noTabNL l = true) : stripCtl l = l :=
  List.filter_eq_self.mpr (noTabNL_iff.mp h)

theorem noTabNL_stripCtl (l : List Char) : noTabNL (stripCtl l) = true := by
  apply noTabNL_iff.mpr
  intro c hc
  unfold stripCtl at hc
  exact (List.mem_filter.mp hc).2

theorem noTabNL_of_sub {l m : List Char} (hsub : ∀ c ∈ l, c ∈ m)
    (h : noTabNL m = true) : noTabNL l = true :=
  noTabNL_iff.mpr fun c hc => noTabNL_iff.mp h c (hsub c hc)

theorem noTabNL_preprocess (x : List Char) : noTabNL (preprocessCL x) = true :=
  noTabNL_of_sub (fun _ hc => mem_trimCL hc) (noTabNL_stripCtl x)

theorem preprocess_fix (x : List Char) :
    preprocessCL (preprocessCL x) = preprocessCL x := by
  show trimCL (stripCtl (preprocessCL x)) = preprocessCL x
  rw [stripCtl_eq_self (noTabNL_preprocess x)]
  exact trimCL_idem _

theorem preprocess_of_fixed {x : List Char} (hs : noTabNL x = true)
    (h1 : ∀ c, x.head? = some c → isWsChar c = false)
    (h2 : ∀ c, x.getLast? = some c → isWsChar c = false) :
    preprocessCL x = x := by
  unfold preprocessCL
  rw [stripCtl_eq_self hs]
  exact trimCL_eq_self h1 h2

end Sitemapper

namespace Sitemapper

/-! ## Character-class facts about lower-casing -/

theorem lowerC_alpha (c : Char) : isAlphaC (lowerC c) = isAlphaC c := by
  unfold lowerC; split <;> rfl

theorem lowerC_schemeChar (c : Char) : schemeChar (lowerC c) = schemeChar c := by
  unfold lowerC; split <;> rfl

theorem lowerC_hostChar (c : Char) : hostChar (lowerC c) = hostChar c := by
  unfold lowerC; split <;> rfl

theorem lowerC_space (c : Char) : (decide (lowerC c = ' ')) = (decide (c = ' ')) := by
  unfold lowerC; split <;> rfl

theorem lowerC_ctl (c : Char) :
    (!(lowerC c = '\t' || lowerC c = '\n' || lowerC c = '\r')) =
      (!(c = '\t' || c = '\n' || c = '\r')) := by
  unfold lowerC; split <;> rfl

theorem lowerC_mem_lower (c : Char) :
    lowerC c = c ∨ lowerC c ∈ "abcdefghijklmnopqrstuvwxyz".data := by
  unfold lowerC
  split <;> first | decide | exact Or.inl rfl

theorem lowerC_of_lower {d : Char} (h : d ∈ "abcdefghijklmnopqrstuvwxyz".data) :
    lowerC d = d := by
  fin_cases h <;> rfl

theorem lowerC_idem (c : Char) : lowerC (lowerC c) = lowerC c := by
  rcases lowerC_mem_lower c with h | h
  · rw [h]; exact h
  · exact lowerC_of_lower h

theorem lowerCL_idem (l : List Char) : lowerCL (lowerCL l) = lowerCL l := by
  unfold lowerCL
  rw [List.map_map]
  exact List.map_congr_left fun c _ => lowerC_idem c

theorem lowerCL_ne_nil {l : List Char} (h : l ≠ []) : lowerCL l ≠ [] := by
  cases l with
  | nil => exact absurd rfl h
  | cons a t => simp [lowerCL]

theorem headAlpha_lowerCL (l : List Char) : headAlpha (lowerCL l) = headAlpha l := by
  cases l with
  | nil => rfl
  | cons a t => simp [lowerCL, headAlpha, lowerC_alpha]

theorem all_lowerCL (p : Char → Bool) (hp : ∀ c, p (lowerC c) = p c) (l : List Char) :
    (lowerCL l).all p = l.all p := by
  unfold lowerCL
  rw [List.all_map]
  induction l with
  | nil => rfl
  | cons a t ih => simp [List.all_cons, hp a, ih]

theorem noTabNL_lowerCL (l : List Char) : noTabNL (lowerCL l) = noTabNL l := by
  unfold noTabNL
  exact all_lowerCL _ lowerC_ctl l

end Sitemapper

namespace Sitemapper

/-! ## URL parser characterization -/

theorem drop_takeWhile_len {α} (p : α → Bool) (l : List α) :
    l.drop (l.takeWhile p).length = l.dropWhile p := by
  calc l.drop (l.takeWhile p).length
      = (l.takeWhile p ++ l.dropWhile p).drop (l.takeWhile p).length := by
        rw [List.takeWhile_append_dropWhile]
    _ = l.dropWhile p := List.drop_left _ _

theorem takeWhile_append_self {α} (p : α → Bool) (l : List α) :
    l.takeWhile p ++ l.drop (l.takeWhile p).length = l := by
  rw [drop_takeWhile_len]
  exact List.takeWhile_append_dropWhile p l

theorem takeWhile_all_true {α} (p : α → Bool) (l : List α) :
    (l.takeWhile p).all p = true :=
  List.all_eq_true.mpr fun _ hc => List.mem_takeWhile_imp hc

end Sitemapper

namespace Sitemapper

theorem splitScheme_eq {l sc rest : List Char}
    (h : splitScheme l = some (sc, rest)) :
    sc = l.takeWhile schemeChar ∧ headAlpha sc = true ∧
      l = sc ++ ':' :: '/' :: '/' :: rest := by
  unfold splitScheme at h
  split at h
  case h_1 c cs r heq1 heq2 =>
    split at h
    case isTrue ha =>
      injection h with h'
      injection h' with h1 h2
      subst h1; subst h2
      refine ⟨heq1.symm, by simp [headAlpha, ha], ?_⟩
      have hl := takeWhile_append_self schemeChar l
      rw [heq2, heq1] at hl
      exact hl.symm
    case isFalse => exact absurd h (by simp)
  case h_2 => exact absurd h (by simp)

theorem takeWhile_cons_head {α} {p : α → Bool} {l : List α} {c : α} {cs : List α}
    (h : l.takeWhile p = c :: cs) : l.head? = some c ∧ p c = true := by
  cases l with
  | nil => simp [List.takeWhile] at h
  | cons a t =>
    by_cases ha : p a = true
    · rw [List.takeWhile_cons_of_pos ha] at h
      cases h
      exact ⟨rfl, ha⟩
    · rw [List.takeWhile_cons_of_neg (by simpa using ha)] at h
      cases h

/-- Closed form of `splitPathQF`. -/
theorem splitPathQF_eq (r2 : List Char) :
    splitPathQF r2 =
      ( if r2.takeWhile (fun c => !(c = '?' || c = '#')) = [] then ['/']
        else r2.takeWhile (fun c => !(c = '?' || c = '#'))
      , (r2.dropWhile (fun c => !(c = '?' || c = '#'))).takeWhile (fun c => !(c = '#'))
      , (r2.dropWhile (fun c => !(c = '?' || c = '#'))).dropWhile (fun c => !(c = '#'))) := by
  unfold splitPathQF
  simp only [drop_takeWhile_len]

end Sitemapper

namespace Sitemapper

/-- The shape facts about `splitPathQF` needed for well-formedness, assuming
the remainder after the host starts (if nonempty) with a host delimiter. -/
theorem splitPathQF_wf (r2 : List Char)
    (hhead : ∀ c, r2.head? = some c → hostChar c = false) :
    ∃ P Q F, splitPathQF r2 = (P, Q, F) ∧
      headIs '/' P = true ∧
      P.all (fun c => !(c = '?' || c = '#')) = true ∧
      (Q = [] ∨ headIs '?' Q = true) ∧
      Q.all (fun c => !(c = '#')) = true ∧
      (F = [] ∨ headIs '#' F = true) ∧
      (P ++ Q ++ F = r2 ∨ P ++ Q ++ F = '/' :: r2) := by
  refine ⟨_, _, _, splitPathQF_eq r2, ?_, ?_, ?_, ?_, ?_, ?_⟩
  · by_cases hT : r2.takeWhile (fun c => !(c = '?' || c = '#')) = []
    · rw [if_pos hT]; decide
    · rw [if_neg hT]
      cases hp : r2.takeWhile (fun c => !(c = '?' || c = '#')) with
      | nil => exact absurd hp hT
      | cons c cs =>
        obtain ⟨hh, hc⟩ := takeWhile_cons_head hp
        have hhost := hhead c hh
        simp at hc
        simp [hostChar, hc.1, hc.2] at hhost
        simp [headIs, hhost]
  · by_cases hT : r2.takeWhile (fun c => !(c = '?' || c = '#')) = []
    · rw [if_pos hT]; decide
    · rw [if_neg hT]; exact takeWhile_all_true _ _
  · cases hr : r2.dropWhile (fun c => !(c = '?' || c = '#')) with
    | nil => left; rfl
    | cons c cs =>
      have hc := dropWhile_head_false hr
      simp at hc
      rcases Classical.em (c = '?') with h1 | h1
      · right
        rw [List.takeWhile_cons_of_pos (by simp [h1])]
        simp [headIs, h1]
      · left
        rw [List.takeWhile_cons_of_neg (by simp [hc h1])]
  · exact takeWhile_all_true _ _
  · cases hf : (r2.dropWhile (fun c => !(c = '?' || c = '#'))).dropWhile
        (fun c => !(c = '#')) with
    | nil => left; rfl
    | cons c cs =>
      right
      have hc := dropWhile_head_false hf
      simp at hc
      simp [headIs, hc]
  · have hqf : (r2.dropWhile (fun c => !(c = '?' || c = '#'))).takeWhile
        (fun c => !(c = '#')) ++
        (r2.dropWhile (fun c => !(c = '?' || c = '#'))).dropWhile (fun c => !(c = '#')) =
        r2.dropWhile (fun c => !(c = '?' || c = '#')) :=
      List.takeWhile_append_dropWhile _ _
    have hpr : r2.takeWhile (fun c => !(c = '?' || c = '#')) ++
        r2.dropWhile (fun c => !(c = '?' || c = '#')) = r2 :=
      List.takeWhile_append_dropWhile _ _
    by_cases hT : r2.takeWhile (fun c => !(c = '?' || c = '#')) = []
    · right
      rw [if_pos hT, List.append_assoc, hqf]
      rw [hT, List.nil_append] at hpr
      rw [hpr]
      rfl
    · left
      rw [if_neg hT, List.append_assoc, hqf, hpr]

end Sitemapper

namespace Sitemapper

theorem dropWhile_head?_false {α} {p : α → Bool} {l m : List α}
    (h : l.dropWhile p = m) : ∀ c, m.head? = some c → p c = false := by
  intro c hc
  cases m with
  | nil => simp at hc
  | cons a t =>
    cases hc
    exact dropWhile_head_false h

theorem headIs_ne_nil {d : Char} {l : List Char} (h : headIs d l = true) : l ≠ [] := by
  cases l with
  | nil => simp [headIs] at h
  | cons a t => simp

/-- Soundness of the absolute-URL parser: on a stripped and trimmed input it
produces only well-formed records. -/
theorem parse_sound {l : List Char} {u : URLRec}
    (hn : noTabNL l = true)
    (hlast : ∀ c, l.getLast? = some c → isWsChar c = false)
    (hp : parseAbsCore l = some u) : WF u := by
  unfold parseAbsCore at hp
  split at hp
  case h_1 => simp at hp
  case h_2 sc rest hsp =>
    obtain ⟨hsc_take, hsc_alpha, hl⟩ := splitScheme_eq hsp
    dsimp only at hp
    -- the guard on the host
    split at hp
    · simp at hp
    · next hguard =>
      rw [Bool.not_eq_true, Bool.or_eq_false_iff] at hguard
      obtain ⟨hne0, hnospace⟩ := hguard
      have hne' : rest.takeWhile hostChar ≠ [] := by simpa using hne0
      rw [drop_takeWhile_len] at hp
      have hhead2 : ∀ c, (rest.dropWhile hostChar).head? = some c → hostChar c = false :=
        dropWhile_head?_false rfl
      obtain ⟨P, Q, F, hPQF, hPhead, hPall, hQ, hQall, hF, hCat⟩ :=
        splitPathQF_wf (rest.dropWhile hostChar) hhead2
      rw [hPQF] at hp
      dsimp only at hp
      injection hp with hp
      subst hp
      -- membership transport into l
      have hmem_rest : ∀ c, c ∈ rest → c ∈ l := by
        intro c hc
        rw [hl]
        exact List.mem_append_right _ (by simp [hc])
      have hmem_host : ∀ c, c ∈ rest.takeWhile hostChar → c ∈ l := fun c hc =>
        hmem_rest c ((List.takeWhile_sublist _).mem hc)
      have hmem_r2 : ∀ c, c ∈ rest.dropWhile hostChar → c ∈ l := fun c hc =>
        hmem_rest c ((List.dropWhile_sublist _).mem hc)
      have hmem_cat : ∀ c, c ∈ P ++ Q ++ F → c = '/' ∨ c ∈ l := by
        intro c hc
        rcases hCat with hCat | hCat
        · exact Or.inr (hmem_r2 c (hCat ▸ hc))
        · rw [hCat] at hc
          rcases List.mem_cons.mp hc with h | h
          · exact Or.inl h
          · exact Or.inr (hmem_r2 c h)
      have hmem_P : ∀ c, c ∈ P → c = '/' ∨ c ∈ l := fun c hc =>
        hmem_cat c (List.mem_append_left _ (List.mem_append_left _ hc))
      have hmem_Q : ∀ c, c ∈ Q → c = '/' ∨ c ∈ l := fun c hc =>
        hmem_cat c (List.mem_append_left _ (List.mem_append_right _ hc))
      have hmem_F : ∀ c, c ∈ F → c = '/' ∨ c ∈ l := fun c hc =>
        hmem_cat c (List.mem_append_right _ hc)
      have hnoTab_of : ∀ (L : List Char), (∀ c, c ∈ L → c = '/' ∨ c ∈ l) →
          noTabNL L = true := by
        intro L hsub
        apply noTabNL_iff.mpr
        intro c hc
        rcases hsub c hc with h | h
        · rw [h]; decide
        · exact noTabNL_iff.mp hn c h
      -- the last character of the serialized remainder
      have hr2_last : ∀ c, (rest.dropWhile hostChar) ≠ [] →
          (rest.dropWhile hostChar).getLast? = some c → isWsChar c = false := by
        intro c hne hlc
        apply hlast
        have hsuffix : rest.takeWhile hostChar ++ rest.dropWhile hostChar = rest :=
          List.takeWhile_append_dropWhile _ _
        have hl2 : l = (sc ++ ':' :: '/' :: '/' :: rest.takeWhile hostChar) ++
            rest.dropWhile hostChar := by
          rw [hl, ← hsuffix]; simp
        rw [hl2, List.getLast?_append_of_ne_nil _ hne]
        exact hlc
      have hlast_cat : (P ++ Q ++ F).getLast? ≠ some ' ' := by
        intro hbad
        rcases hCat with hCat | hCat
        · rw [hCat] at hbad
          have hne2 : rest.dropWhile hostChar ≠ [] := by
            intro hnil
            rw [hnil] at hbad
            simp at hbad
          have := hr2_last ' ' hne2 hbad
          simp [isWsChar] at this
        · rw [hCat] at hbad
          cases hr2 : rest.dropWhile hostChar with
          | nil =>
            rw [hr2] at hbad
            simp at hbad
          | cons a t =>
            rw [hr2] at hbad
            have hne2 : a :: t ≠ [] := by simp
            rw [show ('/' :: a :: t) = ['/'] ++ (a :: t) from rfl,
              List.getLast?_append_of_ne_nil _ hne2] at hbad
            have := hr2_last ' ' (by rw [hr2]; simp) (by rw [hr2]; exact hbad)
            simp [isWsChar] at this
      -- assemble WF
      refine ⟨?_, ?_, ?_, ?_, ?_, ?_, ?_, ?_, ?_, ?_, ?_, ?_, ?_, ?_, ?_, ?_, ?_⟩
      · rw [headAlpha_lowerCL]; exact hsc_alpha
      · rw [all_lowerCL _ lowerC_schemeChar]
        rw [hsc_take]
        exact takeWhile_all_true _ _
      · exact lowerCL_idem _
      · exact lowerCL_ne_nil hne'
      · rw [all_lowerCL _ lowerC_hostChar]
        exact takeWhile_all_true _ _
      · rw [all_lowerCL _ (fun c => congrArg Bool.not (lowerC_space c))]
        rw [List.all_eq_true]
        intro c hc
        rw [List.any_eq_false] at hnospace
        simpa using hnospace c hc
      · exact lowerCL_idem _
      · exact hPhead
      · exact hPall
      · exact hQ
      · exact hQall
      · exact hF
      · rw [noTabNL_lowerCL]
        exact noTabNL_of_sub hmem_host hn
      · exact hnoTab_of P hmem_P
      · exact hnoTab_of Q hmem_Q
      · exact hnoTab_of F hmem_F
      · exact hlast_cat

end Sitemapper

namespace Sitemapper

theorem headIs_cons {d : Char} {l : List Char} (h : headIs d l = true) :
    ∃ t, l = d :: t := by
  cases l with
  | nil => simp [headIs] at h
  | cons c t =>
    simp [headIs] at h
    subst h
    exact ⟨t, rfl⟩

theorem all_imp {p q : Char → Bool} (h : ∀ c, p c = true → q c = true)
    {l : List Char} (hl : l.all p = true) : l.all q = true :=
  List.all_eq_true.mpr fun c hc => h c (List.all_eq_true.mp hl c hc)

theorem mem_of_getLast? {α} : ∀ {l : List α} {c : α}, l.getLast? = some c → c ∈ l := by
  intro l
  induction l with
  | nil => intro c h; simp at h
  | cons a t ih =>
    intro c h
    cases t with
    | nil =>
      simp at h
      subst h
      exact List.mem_cons_self a []
    | cons b t2 =>
      rw [List.getLast?_cons_cons] at h
      exact List.mem_cons_of_mem a (ih h)

theorem schemeChar_noTab (c : Char) (h : schemeChar c = true) :
    (!(c = '\t' || c = '\n' || c = '\r')) = true := by
  simp only [Bool.not_eq_true', Bool.or_eq_false_iff, decide_eq_false_iff_not]
  refine ⟨⟨?_, ?_⟩, ?_⟩ <;> intro h1 <;> subst h1 <;>
    simp [schemeChar, isAlphaC, isDigitC] at h

theorem isAlphaC_not_ws {c : Char} (h : isAlphaC c = true) : isWsChar c = false := by
  simp only [isWsChar, Bool.or_eq_false_iff, decide_eq_false_iff_not]
  refine ⟨⟨⟨?_, ?_⟩, ?_⟩, ?_⟩ <;> intro h1 <;> subst h1 <;> simp [isAlphaC] at h

/-- Serialization of a well-formed record in scheme-exposed form. -/
theorem serialize_shape (u : URLRec) :
    u.serialize = u.scheme ++ ':' :: '/' :: '/' ::
      (u.host ++ (u.path ++ (u.query ++ u.frag))) := by
  simp [URLRec.serialize, List.append_assoc]

theorem serialize_noTabNL {u : URLRec} (hw : WF u) : noTabNL u.serialize = true := by
  obtain ⟨h1, h2, h3, h4, h5, h6, h7, h8, h9, h10, h11, h12, h13, h14, h15, h16, h17⟩ := hw
  have hsch := all_imp schemeChar_noTab h2
  rw [serialize_shape]
  unfold noTabNL at *
  simp [List.all_append, List.all_cons, List.all_eq_true] at hsch h13 h14 h15 h16 ⊢
  exact ⟨hsch, h13, h14, h15, h16⟩

theorem serialize_ne_nil (u : URLRec) : u.serialize ≠ [] := by
  rw [serialize_shape]
  cases u.scheme <;> simp

theorem serialize_head {u : URLRec} (hw : WF u) :
    ∀ c, u.serialize.head? = some c → isWsChar c = false := by
  intro c hc
  obtain ⟨h1, _⟩ := hw
  rw [serialize_shape] at hc
  cases hs : u.scheme with
  | nil => rw [hs] at hc; simp [headAlpha, hs] at h1
  | cons a t =>
    rw [hs] at hc
    simp at hc
    subst hc
    rw [hs] at h1
    simp [headAlpha] at h1
    exact isAlphaC_not_ws h1

theorem serialize_last {u : URLRec} (hw : WF u) :
    ∀ c, u.serialize.getLast? = some c → isWsChar c = false := by
  intro c hc
  have h8 := hw.2.2.2.2.2.2.2.1
  have h17 := hw.2.2.2.2.2.2.2.2.2.2.2.2.2.2.2.2
  have hpqf_ne : u.path ++ u.query ++ u.frag ≠ [] := by
    obtain ⟨t, ht⟩ := headIs_cons h8
    rw [ht]
    simp
  have hser2 : u.serialize = (u.scheme ++ ':' :: '/' :: '/' :: u.host) ++
      (u.path ++ u.query ++ u.frag) := by
    simp [URLRec.serialize, List.append_assoc]
  rw [hser2, List.getLast?_append_of_ne_nil _ hpqf_ne] at hc
  -- c is the last of path ++ query ++ frag: not a space by WF, not a control
  -- character by the component noTabNL conditions
  have hmem : c ∈ u.path ++ u.query ++ u.frag := mem_of_getLast? hc
  have h14 := hw.2.2.2.2.2.2.2.2.2.2.2.2.2.1
  have h15 := hw.2.2.2.2.2.2.2.2.2.2.2.2.2.2.1
  have h16 := hw.2.2.2.2.2.2.2.2.2.2.2.2.2.2.2.1
  have hnotab : (!(c = '\t' || c = '\n' || c = '\r')) = true := by
    rcases List.mem_append.mp hmem with hm | hm
    · rcases List.mem_append.mp hm with hm2 | hm2
      · exact noTabNL_iff.mp h14 c hm2
      · exact noTabNL_iff.mp h15 c hm2
    · exact noTabNL_iff.mp h16 c hm
  have hnsp : c ≠ ' ' := by
    intro hsp
    subst hsp
    exact h17 hc
  simp at hnotab
  simp [isWsChar, hnsp, hnotab.1.1, hnotab.1.2, hnotab.2]

theorem serialize_preprocess_fix {u : URLRec} (hw : WF u) :
    preprocessCL u.serialize = u.serialize :=
  preprocess_of_fixed (serialize_noTabNL hw) (serialize_head hw) (serialize_last hw)

theorem serialize_trim_fix {u : URLRec} (hw : WF u) :
    trimCL u.serialize = u.serialize :=
  trimCL_eq_self (serialize_head hw) (serialize_last hw)

end Sitemapper

namespace Sitemapper

theorem splitScheme_serialize {u : URLRec} (hw : WF u) :
    splitScheme u.serialize =
      some (u.scheme, u.host ++ (u.path ++ (u.query ++ u.frag))) := by
  have h1 := hw.1
  have h2 := hw.2.1
  have htake : u.serialize.takeWhile schemeChar = u.scheme := by
    rw [serialize_shape]
    exact takeWhile_append_stop (List.all_eq_true.mp h2) (by decide)
  have hdrop : u.serialize.drop u.scheme.length =
      ':' :: '/' :: '/' :: (u.host ++ (u.path ++ (u.query ++ u.frag))) := by
    rw [serialize_shape]
    exact List.drop_left _ _
  obtain ⟨c, cs, hcs, halpha⟩ : ∃ c cs, u.scheme = c :: cs ∧ isAlphaC c = true := by
    cases hs : u.scheme with
    | nil => rw [hs] at h1; simp [headAlpha] at h1
    | cons c cs =>
      rw [hs] at h1
      simp [headAlpha] at h1
      exact ⟨c, cs, rfl, h1⟩
  unfold splitScheme
  rw [htake, hdrop, hcs]
  show (if isAlphaC c = true then
      some (c :: cs, u.host ++ (u.path ++ (u.query ++ u.frag))) else none) =
    some (c :: cs, u.host ++ (u.path ++ (u.query ++ u.frag)))
  rw [if_pos halpha]

theorem splitPathQF_complete {P Q F : List Char}
    (hP : headIs '/' P = true)
    (hPall : P.all (fun c => !(c = '?' || c = '#')) = true)
    (hQ : Q = [] ∨ headIs '?' Q = true)
    (hQall : Q.all (fun c => !(c = '#')) = true)
    (hF : F = [] ∨ headIs '#' F = true) :
    splitPathQF (P ++ (Q ++ F)) = (P, Q, F) := by
  have hPmem := List.all_eq_true.mp hPall
  have hQmem := List.all_eq_true.mp hQall
  have htP : (P ++ (Q ++ F)).takeWhile (fun c => !(c = '?' || c = '#')) = P := by
    rcases hQ with hQe | hQh
    · subst hQe
      rw [List.nil_append]
      rcases hF with hFe | hFh
      · subst hFe
        rw [List.append_nil]
        exact takeWhile_all hPmem
      · obtain ⟨t, ht⟩ := headIs_cons hFh
        rw [ht]
        exact takeWhile_append_stop hPmem (by decide)
    · obtain ⟨t, ht⟩ := headIs_cons hQh
      rw [ht, List.cons_append]
      exact takeWhile_append_stop hPmem (by decide)
  have hdP : (P ++ (Q ++ F)).dropWhile (fun c => !(c = '?' || c = '#')) = Q ++ F := by
    have hsum := List.takeWhile_append_dropWhile
      (p := fun c => !(c = '?' || c = '#')) (l := P ++ (Q ++ F))
    rw [htP] at hsum
    exact List.append_cancel_left hsum
  have htQ : (Q ++ F).takeWhile (fun c => !(c = '#')) = Q := by
    rcases hF with hFe | hFh
    · subst hFe
      rw [List.append_nil]
      exact takeWhile_all hQmem
    · obtain ⟨t, ht⟩ := headIs_cons hFh
      rw [ht]
      exact takeWhile_append_stop hQmem (by decide)
  have hdQ : (Q ++ F).dropWhile (fun c => !(c = '#')) = F := by
    have hsum := List.takeWhile_append_dropWhile
      (p := fun c => !(c = '#')) (l := Q ++ F)
    rw [htQ] at hsum
    exact List.append_cancel_left hsum
  rw [splitPathQF_eq, htP, hdP, htQ, hdQ]
  rw [if_neg (headIs_ne_nil hP)]

/-- Completeness of the parser: serializing a well-formed record and parsing
it back is the identity. -/
theorem parse_complete {u : URLRec} (hw : WF u) :
    parseAbsCore u.serialize = some u := by
  have hss := splitScheme_serialize hw
  obtain ⟨h1, h2, h3, h4, h5, h6, h7, h8, h9, h10, h11, h12, h13, h14, h15, h16, h17⟩ := hw
  unfold parseAbsCore
  rw [hss]
  dsimp only
  obtain ⟨ps, hps⟩ := headIs_cons h8
  have htakeh : (u.host ++ (u.path ++ (u.query ++ u.frag))).takeWhile hostChar = u.host := by
    rw [hps, List.cons_append]
    exact takeWhile_append_stop (List.all_eq_true.mp h5) (by decide)
  rw [htakeh]
  have hknospace : (u.host.any fun c => decide (c = ' ')) = false := by
    rw [List.any_eq_false]
    intro x hx
    simpa using List.all_eq_true.mp h6 x hx
  rw [if_neg (by simp [h4, hknospace])]
  rw [List.drop_left]
  rw [splitPathQF_complete h8 h9 h10 h11 h12]
  rw [h3, h7]

end Sitemapper

namespace Sitemapper

theorem take_cons_head {α} {l : List α} {k : Nat} {a : α} {t : List α}
    (h : l.take k = a :: t) : l.head? = some a := by
  cases k with
  | zero => simp at h
  | succ k2 =>
    cases l with
    | nil => simp at h
    | cons c cs =>
      rw [List.take_succ_cons] at h
      cases h
      rfl

theorem endsCL_rw_false (l : List Char) :
    endsCL "/index.html".data (l ++ ['/']) = false := by
  unfold endsCL
  rw [List.reverse_append]
  have hrev : "/index.html".data.reverse =
      ['l', 'm', 't', 'h', '.', 'x', 'e', 'd', 'n', 'i', '/'] := by decide
  rw [hrev]
  show leadsCL _ ('/' :: l.reverse) = false
  simp [leadsCL]

/-- The `/index.html` rewrite preserves well-formedness. -/
theorem idxRewrite_wf {u : URLRec} (hw : WF u) : WF (idxRewrite u) := by
  unfold idxRewrite
  split
  case isFalse => exact hw
  case isTrue hends =>
    obtain ⟨h1, h2, h3, h4, h5, h6, h7, h8, h9, h10, h11, h12, h13, h14, h15, h16, h17⟩ := hw
    have hmemP : ∀ c, c ∈ u.path.take (u.path.length - "/index.html".data.length) ++ ['/'] →
        c = '/' ∨ c ∈ u.path := by
      intro c hc
      rcases List.mem_append.mp hc with hm | hm
      · exact Or.inr ((List.take_sublist _ _).mem hm)
      · simp at hm
        exact Or.inl hm
    refine ⟨h1, h2, h3, h4, h5, h6, h7, ?_, ?_, h10, h11, h12, h13, ?_, h15, h16, ?_⟩
    · -- the rewritten path still starts with '/'
      cases htk : u.path.take (u.path.length - "/index.html".data.length) with
      | nil => rfl
      | cons a t =>
        have hha := take_cons_head htk
        obtain ⟨t0, ht0⟩ := headIs_cons h8
        rw [ht0] at hha
        simp at hha
        subst hha
        simp [headIs]
    · rw [List.all_eq_true]
      intro c hc
      rcases hmemP c hc with h | h
      · rw [h]; decide
      · exact List.all_eq_true.mp h9 c h
    · apply noTabNL_iff.mpr
      intro c hc
      rcases hmemP c hc with h | h
      · rw [h]; decide
      · exact noTabNL_iff.mp h14 c h
    · -- the last character of path ++ query ++ frag is unchanged or '/'
      have hlastP : (u.path.take (u.path.length - "/index.html".data.length) ++
          ['/']).getLast? = some '/' := List.getLast?_concat _
      rcases h12 with hFe | hFh
      · rcases h10 with hQe | hQh
        · rw [hFe, hQe]
          rw [hFe, hQe] at h17
          simp only [List.append_nil]
          rw [hlastP]
          simp
        · obtain ⟨t, ht⟩ := headIs_cons hQh
          rw [hFe] at h17 ⊢
          simp only [List.append_nil] at h17 ⊢
          have hQne : u.query ≠ [] := by rw [ht]; simp
          rw [List.getLast?_append_of_ne_nil _ hQne] at h17 ⊢
          exact h17
      · obtain ⟨t, ht⟩ := headIs_cons hFh
        have hFne : u.frag ≠ [] := by rw [ht]; simp
        rw [List.getLast?_append_of_ne_nil _ hFne] at h17 ⊢
        exact h17

theorem idxRewrite_idem (u : URLRec) : idxRewrite (idxRewrite u) = idxRewrite u := by
  by_cases h : endsCL "/index.html".data u.path = true
  · have h1 : idxRewrite u =
        { u with path := u.path.take (u.path.length - "/index.html".data.length) ++ ['/'] } := by
      unfold idxRewrite
      rw [if_pos h]
    rw [h1]
    unfold idxRewrite
    rw [if_neg (by rw [endsCL_rw_false]; exact Bool.false_ne_true)]
  · have h1 : idxRewrite u = u := by
      unfold idxRewrite
      rw [if_neg h]
    rw [h1]
    exact h1

theorem safeUrl_noBase (x : String) :
    safeUrl x none = parseAbsCore (preprocessCL x.data) := by
  unfold safeUrl
  dsimp only
  cases hp : parseAbsCore (preprocessCL x.data) with
  | some u => rfl
  | none =>
    split
    · next heq => simp at heq
    · split <;> rfl

end Sitemapper

/-- C9: the URL normalizer is idempotent: whenever `normalizeUrl` succeeds,
applying it to its own output returns that output unchanged (in particular
after the `/index.html` → `/` rewrite). -/
theorem c9_normalizeUrl_idempotent (s t : String) (h : Sitemapper.normalizeUrl s = some t) :
    Sitemapper.normalizeUrl t = some t := by
  open Sitemapper in
  unfold Sitemapper.normalizeUrl at h ⊢
  rw [Sitemapper.safeUrl_noBase] at h ⊢
  cases hps : Sitemapper.parseAbsCore (Sitemapper.preprocessCL (Sitemapper.trimStr s).data) with
  | none => rw [hps] at h; simp at h
  | some u0 =>
    rw [hps] at h
    injection h with h
    have hwf0 : Sitemapper.WF u0 :=
      Sitemapper.parse_sound (Sitemapper.noTabNL_preprocess _)
        (fun c hc => Sitemapper.trimCL_getLast_not hc) hps
    have hwfv : Sitemapper.WF (Sitemapper.idxRewrite u0) := Sitemapper.idxRewrite_wf hwf0
    subst h
    have hdata : (Sitemapper.trimStr (Sitemapper.idxRewrite u0).toStr).data =
        (Sitemapper.idxRewrite u0).serialize :=
      Sitemapper.serialize_trim_fix hwfv
    rw [hdata, Sitemapper.serialize_preprocess_fix hwfv, Sitemapper.parse_complete hwfv]
    show some (Sitemapper.idxRewrite (Sitemapper.idxRewrite u0)).toStr =
      some (Sitemapper.idxRewrite u0).toStr
    rw [Sitemapper.idxRewrite_idem]

/-- C9 witness: a concrete run of the idempotence theorem on a URL whose path
ends in `/index.html`. -/
theorem c9_normalizeUrl_idempotent_witness :
    Sitemapper.normalizeUrl "https://shop.example/a/" =
      some "https://shop.example/a/" :=
  c9_normalizeUrl_idempotent "https://shop.example/a/index.html"
    "https://shop.example/a/" (by decide)

namespace Sitemapper

/-! ## State-helper lemmas -/

theorem str_append_data (s t : String) : (s ++ t).data = s.data ++ t.data := rfl

theorem str_append_ne_empty_right (s t : String) (h : t ≠ "") : s ++ t ≠ "" := by
  intro hc
  apply h
  have hd : s.data ++ t.data = ([] : List Char) := by
    have := congrArg String.data hc
    rwa [str_append_data] at this
  have : t.data = [] := (List.append_eq_nil.mp hd).2
  cases t
  simp at this
  rw [this]

theorem pushError_eq_of_ne {st : CrawlState} {m : String} (h : m ≠ "") :
    pushError st m = { st with errors := st.errors ++ [m] } := by
  unfold pushError
  rw [if_neg h]

@[simp] theorem pushError_urls (st : CrawlState) (m : String) :
    (pushError st m).urls = st.urls := by
  unfold pushError; split <;> rfl

@[simp] theorem pushError_tried (st : CrawlState) (m : String) :
    (pushError st m).tried = st.tried := by
  unfold pushError; split <;> rfl

@[simp] theorem pushError_visited (st : CrawlState) (m : String) :
    (pushError st m).visitedSitemaps = st.visitedSitemaps := by
  unfold pushError; split <;> rfl

@[simp] theorem pushError_fetched (st : CrawlState) (m : String) :
    (pushError st m).sitemapsFetched = st.sitemapsFetched := by
  unfold pushError; split <;> rfl

@[simp] theorem pushError_primary (st : CrawlState) (m : String) :
    (pushError st m).primarySitemapUrl = st.primarySitemapUrl := by
  unfold pushError; split <;> rfl

@[simp] theorem pushError_truncated (st : CrawlState) (m : String) :
    (pushError st m).truncated = st.truncated := by
  unfold pushError; split <;> rfl

@[simp] theorem pushError_limits (st : CrawlState) (m : String) :
    (pushError st m).limits = st.limits := by
  unfold pushError; split <;> rfl

@[simp] theorem pushError_origin (st : CrawlState) (m : String) :
    (pushError st m).origin = st.origin := by
  unfold pushError; split <;> rfl

@[simp] theorem pushTried_urls (st : CrawlState) (u : String) (s : Nat) (e : Option String) :
    (pushTried st u s e).urls = st.urls := rfl

@[simp] theorem pushTried_errors (st : CrawlState) (u : String) (s : Nat) (e : Option String) :
    (pushTried st u s e).errors = st.errors := rfl

@[simp] theorem pushTried_visited (st : CrawlState) (u : String) (s : Nat) (e : Option String) :
    (pushTried st u s e).visitedSitemaps = st.visitedSitemaps := rfl

@[simp] theorem pushTried_fetched (st : CrawlState) (u : String) (s : Nat) (e : Option String) :
    (pushTried st u s e).sitemapsFetched = st.sitemapsFetched := rfl

@[simp] theorem pushTried_primary (st : CrawlState) (u : String) (s : Nat) (e : Option String) :
    (pushTried st u s e).primarySitemapUrl = st.primarySitemapUrl := rfl

@[simp] theorem pushTried_truncated (st : CrawlState) (u : String) (s : Nat) (e : Option String) :
    (pushTried st u s e).truncated = st.truncated := rfl

@[simp] theorem pushTried_limits (st : CrawlState) (u : String) (s : Nat) (e : Option String) :
    (pushTried st u s e).limits = st.limits := rfl

@[simp] theorem pushTried_origin (st : CrawlState) (u : String) (s : Nat) (e : Option String) :
    (pushTried st u s e).origin = st.origin := rfl

@[simp] theorem markTruncated_urls (st : CrawlState) :
    (markTruncated st).urls = st.urls := by
  unfold markTruncated; split <;> simp

@[simp] theorem markTruncated_tried (st : CrawlState) :
    (markTruncated st).tried = st.tried := by
  unfold markTruncated; split <;> simp

@[simp] theorem markTruncated_visited (st : CrawlState) :
    (markTruncated st).visitedSitemaps = st.visitedSitemaps := by
  unfold markTruncated; split <;> simp

@[simp] theorem markTruncated_fetched (st : CrawlState) :
    (markTruncated st).sitemapsFetched = st.sitemapsFetched := by
  unfold markTruncated; split <;> simp

@[simp] theorem markTruncated_primary (st : CrawlState) :
    (markTruncated st).primarySitemapUrl = st.primarySitemapUrl := by
  unfold markTruncated; split <;> simp

@[simp] theorem markTruncated_limits (st : CrawlState) :
    (markTruncated st).limits = st.limits := by
  unfold markTruncated; split <;> simp

@[simp] theorem markTruncated_origin (st : CrawlState) :
    (markTruncated st).origin = st.origin := by
  unfold markTruncated; split <;> simp

theorem errOnly_refl (st : CrawlState) : ErrOnly st st :=
  ⟨[], by rw [List.append_nil]⟩

theorem errOnly_pushError (st : CrawlState) (m : String) : ErrOnly st (pushError st m) := by
  unfold pushError
  split
  · exact errOnly_refl st
  · exact ⟨[m], rfl⟩

theorem errOnly_trans {st1 st2 st3 : CrawlState} (h1 : ErrOnly st1 st2)
    (h2 : ErrOnly st2 st3) : ErrOnly st1 st3 := by
  obtain ⟨E1, he1⟩ := h1
  obtain ⟨E2, he2⟩ := h2
  subst he1
  subst he2
  exact ⟨E1 ++ E2, by simp⟩

theorem errOnly_pushError_of {st1 st2 : CrawlState} (h : ErrOnly st1 st2) (m : String) :
    ErrOnly st1 (pushError st2 m) :=
  errOnly_trans h (errOnly_pushError st2 m)

theorem ErrOnly.urls {st st' : CrawlState} (h : ErrOnly st st') : st'.urls = st.urls := by
  obtain ⟨E, he⟩ := h; subst he; rfl

theorem ErrOnly.tried {st st' : CrawlState} (h : ErrOnly st st') : st'.tried = st.tried := by
  obtain ⟨E, he⟩ := h; subst he; rfl

theorem ErrOnly.visited {st st' : CrawlState} (h : ErrOnly st st') :
    st'.visitedSitemaps = st.visitedSitemaps := by
  obtain ⟨E, he⟩ := h; subst he; rfl

theorem ErrOnly.fetched {st st' : CrawlState} (h : ErrOnly st st') :
    st'.sitemapsFetched = st.sitemapsFetched := by
  obtain ⟨E, he⟩ := h; subst he; rfl

theorem ErrOnly.primary {st st' : CrawlState} (h : ErrOnly st st') :
    st'.primarySitemapUrl = st.primarySitemapUrl := by
  obtain ⟨E, he⟩ := h; subst he; rfl

theorem ErrOnly.trunc {st st' : CrawlState} (h : ErrOnly st st') :
    st'.truncated = st.truncated := by
  obtain ⟨E, he⟩ := h; subst he; rfl

theorem ErrOnly.limits {st st' : CrawlState} (h : ErrOnly st st') :
    st'.limits = st.limits := by
  obtain ⟨E, he⟩ := h; subst he; rfl

theorem ErrOnly.origin {st st' : CrawlState} (h : ErrOnly st st') :
    st'.origin = st.origin := by
  obtain ⟨E, he⟩ := h; subst he; rfl

theorem respText_snd (env : Env) (r : HttpResponse) (u : String) (st : CrawlState) :
    ErrOnly st (responseToSitemapText env r u st).2 := by
  unfold responseToSitemapText
  dsimp only
  split
  · exact errOnly_refl st
  · split
    · dsimp only
      exact errOnly_pushError st _
    · split
      · exact errOnly_refl st
      · dsimp only
        exact errOnly_pushError st _

theorem collectLocs_snd (u : String) :
    ∀ (ts : List (Option String)) (st : CrawlState),
      ErrOnly st (collectLocs u ts st).2 := by
  intro ts
  induction ts with
  | nil => intro st; exact errOnly_refl st
  | cons t rest ih =>
    intro st
    unfold collectLocs
    cases t with
    | none => exact ih st
    | some raw =>
      dsimp only [Option.map]
      split
      · exact ih st
      · split
        · exact errOnly_trans (errOnly_pushError st _) (ih _)
        · rcases hcl : collectLocs u rest st with ⟨ls, st2⟩
          have := ih st
          rw [hcl] at this
          exact this

theorem parseSitemapXml_snd (env : Env) (x u : String) (st : CrawlState) :
    ErrOnly st (parseSitemapXml env x u st).2 := by
  unfold parseSitemapXml
  dsimp only
  split
  · dsimp only
    exact errOnly_pushError st _
  · rcases hcl : collectLocs u (env.parseXml x).locTexts st with ⟨ls, st2⟩
    have hco := collectLocs_snd u (env.parseXml x).locTexts st
    rw [hcl] at hco
    split
    · exact hco
    · split
      · exact hco
      · dsimp only
        exact errOnly_pushError_of hco _

end Sitemapper

namespace Sitemapper

theorem fetch_succ (env : Env) (fuel : Nat) (url : String) (depth : Nat) (st : CrawlState) :
    fetchAndParseSitemap env (fuel + 1) url depth st =
      crawlNode env (fun c s => fetchAndParseSitemap env fuel c (depth + 1) s) url depth st :=
  rfl

theorem fetch_zero (env : Env) (url : String) (depth : Nat) (st : CrawlState) :
    fetchAndParseSitemap env 0 url depth st =
      crawlNode env (fun _ s => s) url depth st :=
  rfl

theorem crawlNode_depth_guard (env : Env) (recurse : String → CrawlState → CrawlState)
    (url : String) (depth : Nat) (st : CrawlState) (h : st.limits.maxDepth < depth) :
    crawlNode env recurse url depth st =
      pushError st ("Max sitemap depth exceeded at " ++ url ++ ".") := by
  unfold crawlNode
  rw [if_pos h]

theorem fetch_depth_guard (env : Env) (fuel : Nat) (url : String) (depth : Nat)
    (st : CrawlState) (h : st.limits.maxDepth < depth) :
    fetchAndParseSitemap env fuel url depth st =
      pushError st ("Max sitemap depth exceeded at " ++ url ++ ".") := by
  cases fuel with
  | zero => rw [fetch_zero]; exact crawlNode_depth_guard env _ url depth st h
  | succ f => rw [fetch_succ]; exact crawlNode_depth_guard env _ url depth st h

/-- The visited-set guard (content.js line 154), conditional on the depth and
resolution guards not firing first. -/
theorem crawlNode_visited_guard (env : Env) (recurse : String → CrawlState → CrawlState)
    (url : String) (depth : Nat) (st : CrawlState) (v : String)
    (hdepth : depth ≤ st.limits.maxDepth)
    (hres : safeUrlStr url (some st.origin) = some v)
    (hvis : st.visitedSitemaps.contains v = true) :
    crawlNode env recurse url depth st = st := by
  unfold crawlNode
  rw [if_neg (by omega)]
  rw [hres]
  dsimp only
  rw [if_pos hvis]

theorem fetch_visited_guard (env : Env) (fuel : Nat) (url : String) (depth : Nat)
    (st : CrawlState) (v : String)
    (hdepth : depth ≤ st.limits.maxDepth)
    (hres : safeUrlStr url (some st.origin) = some v)
    (hvis : st.visitedSitemaps.contains v = true) :
    fetchAndParseSitemap env fuel url depth st = st := by
  cases fuel with
  | zero => rw [fetch_zero]; exact crawlNode_visited_guard env _ url depth st v hdepth hres hvis
  | succ f => rw [fetch_succ]; exact crawlNode_visited_guard env _ url depth st v hdepth hres hvis

end Sitemapper

/-- C5: a sitemap URL reached at depth strictly greater than `maxDepth` only
records the depth-exceeded diagnostic: nothing is fetched, no URL is
contributed, and `tried`, `urls` and the fetch counter are unchanged. -/
theorem c5_depth_exceeded (env : Sitemapper.Env) (fuel : Nat) (url : String) (depth : Nat)
    (st : Sitemapper.CrawlState) (h : st.limits.maxDepth < depth) :
    Sitemapper.fetchAndParseSitemap env fuel url depth st =
      Sitemapper.pushError st ("Max sitemap depth exceeded at " ++ url ++ ".") ∧
    (Sitemapper.fetchAndParseSitemap env fuel url depth st).urls = st.urls ∧
    (Sitemapper.fetchAndParseSitemap env fuel url depth st).tried = st.tried ∧
    (Sitemapper.fetchAndParseSitemap env fuel url depth st).sitemapsFetched =
      st.sitemapsFetched ∧
    ("Max sitemap depth exceeded at " ++ url ++ ".") ∈
      (Sitemapper.fetchAndParseSitemap env fuel url depth st).errors := by
  have heq := Sitemapper.fetch_depth_guard env fuel url depth st h
  rw [heq]
  have hne : ("Max sitemap depth exceeded at " ++ url ++ ".") ≠ "" :=
    Sitemapper.str_append_ne_empty_right _ _ (by decide)
  rw [Sitemapper.pushError_eq_of_ne hne]
  refine ⟨?_, rfl, rfl, rfl, ?_⟩
  · rw [← Sitemapper.pushError_eq_of_ne hne]
  · simp

/-- C5 witness: concrete depth-guard run at depth 4 against the default
limits. -/
theorem c5_depth_exceeded_witness :
    (Sitemapper.stCap.limits.maxDepth < 4) ∧
    ("Max sitemap depth exceeded at https://cap.example/deep.xml.") ∈
      (Sitemapper.fetchAndParseSitemap Sitemapper.envTen 4
        "https://cap.example/deep.xml" 4 Sitemapper.stCap).errors :=
  ⟨by decide, (c5_depth_exceeded Sitemapper.envTen 4 "https://cap.example/deep.xml" 4
    Sitemapper.stCap (by decide)).2.2.2.2⟩

/-- C3 counterexample: when the depth guard fires first (depth greater than
`maxDepth`), `fetchAndParseSitemap` on an already-visited URL does *not*
leave the state unchanged — it appends a depth diagnostic — so the claim as
stated (for every crawl state) is false. -/
theorem c3_visited_counterexample :
    Sitemapper.safeUrlStr "https://a.example/s.xml"
        (some Sitemapper.stVisited.origin) = some "https://a.example/s.xml" ∧
    Sitemapper.stVisited.visitedSitemaps.contains "https://a.example/s.xml" = true ∧
    Sitemapper.fetchAndParseSitemap (Sitemapper.deadEnv "https://a.example") 5
        "https://a.example/s.xml" 4 Sitemapper.stVisited ≠ Sitemapper.stVisited := by
  refine ⟨by decide, by decide, ?_⟩
  decide

/-- C3 (amended): provided the depth guard does not fire (`depth ≤ maxDepth`),
a sitemap URL whose resolved form is already in `visitedSitemaps` makes
`fetchAndParseSitemap` return with the entire state unchanged: no fetch, no
`tried` entry, no diagnostic, no counter change; in particular an index that
lists itself is not re-fetched. -/
theorem c3_visited_frame (env : Sitemapper.Env) (fuel : Nat) (url : String) (depth : Nat)
    (st : Sitemapper.CrawlState) (v : String)
    (hdepth : depth ≤ st.limits.maxDepth)
    (hres : Sitemapper.safeUrlStr url (some st.origin) = some v)
    (hvis : st.visitedSitemaps.contains v = true) :
    Sitemapper.fetchAndParseSitemap env fuel url depth st = st :=
  Sitemapper.fetch_visited_guard env fuel url depth st v hdepth hres hvis

/-- C3 witness: the frame property on a concrete visited URL. -/
theorem c3_visited_frame_witness :
    Sitemapper.fetchAndParseSitemap (Sitemapper.deadEnv "https://a.example") 4
        "https://a.example/s.xml" 1 Sitemapper.stVisited = Sitemapper.stVisited :=
  c3_visited_frame (Sitemapper.deadEnv "https://a.example") 4 "https://a.example/s.xml" 1
    Sitemapper.stVisited "https://a.example/s.xml" (by decide) (by decide) (by decide)

/-- C6: the transport decoder treats the body as gzip-compressed exactly when
the `Content-Encoding` header contains `gzip` or the URL ends in `.gz`
(both case-insensitively); in that case an unavailable decompression
capability or a decompression failure records a diagnostic and yields no
content, a successful decompression yields the decompressed text, and
otherwise the plain body text is returned with the state unchanged. -/
theorem c6_transport_decoder (env : Sitemapper.Env) (res : Sitemapper.HttpResponse)
    (url : String) (st : Sitemapper.CrawlState) :
    (Sitemapper.hasSubStr "gzip"
        (Sitemapper.lowerStr (Sitemapper.jsOrS res.contentEncoding "")) = false →
      Sitemapper.endsWithStr ".gz" (Sitemapper.lowerStr url) = false →
      Sitemapper.responseToSitemapText env res url st = (some res.bodyText, st)) ∧
    ((Sitemapper.hasSubStr "gzip"
        (Sitemapper.lowerStr (Sitemapper.jsOrS res.contentEncoding "")) = true ∨
      Sitemapper.endsWithStr ".gz" (Sitemapper.lowerStr url) = true) →
      (env.decompressionAvailable = false →
        Sitemapper.responseToSitemapText env res url st =
          (none, Sitemapper.pushError st
            ("Cannot parse gzip sitemap " ++ url ++ ": DecompressionStream unavailable."))) ∧
      (env.decompressionAvailable = true →
        (∀ e, res.gzipResult = Sitemapper.GzipOutcome.throws e →
          Sitemapper.responseToSitemapText env res url st =
            (none, Sitemapper.pushError st
              ("Failed to decompress gzip sitemap " ++ url ++ ": " ++
                Sitemapper.errMsg e))) ∧
        (∀ t, res.gzipResult = Sitemapper.GzipOutcome.ok t →
          Sitemapper.responseToSitemapText env res url st = (some t, st)))) := by
  constructor
  · intro h1 h2
    unfold Sitemapper.responseToSitemapText
    dsimp only
    rw [h1, h2]
    rfl
  · intro hgz
    have hlooks : (Sitemapper.hasSubStr "gzip"
        (Sitemapper.lowerStr (Sitemapper.jsOrS res.contentEncoding "")) ||
        Sitemapper.endsWithStr ".gz" (Sitemapper.lowerStr url)) = true := by
      rcases hgz with h | h <;> simp [h]
    constructor
    · intro havail
      unfold Sitemapper.responseToSitemapText
      dsimp only
      rw [hlooks, havail]
      rfl
    · intro havail
      constructor
      · intro e he
        unfold Sitemapper.responseToSitemapText
        dsimp only
        rw [hlooks, havail, he]
        rfl
      · intro t ht
        unfold Sitemapper.responseToSitemapText
        dsimp only
        rw [hlooks, havail, ht]
        rfl

/-- C6 witness: concrete runs of the decoder — a plain response passes its
body through, and a `.gz` URL without decompression support yields no content
plus a diagnostic. -/
theorem c6_transport_decoder_witness :
    Sitemapper.responseToSitemapText (Sitemapper.deadEnv "https://a.example")
      { status := 200, contentEncoding := none, bodyText := "BODY"
      , gzipResult := Sitemapper.GzipOutcome.ok "UNUSED" }
      "https://a.example/s.xml" Sitemapper.stVisited =
      (some "BODY", Sitemapper.stVisited) ∧
    Sitemapper.responseToSitemapText (Sitemapper.deadEnv "https://a.example")
      { status := 200, contentEncoding := none, bodyText := "RAW"
      , gzipResult := Sitemapper.GzipOutcome.ok "UNUSED" }
      "https://a.example/s.xml.gz" Sitemapper.stVisited =
      (none, Sitemapper.pushError Sitemapper.stVisited
        ("Cannot parse gzip sitemap https://a.example/s.xml.gz: DecompressionStream unavailable.")) :=
  ⟨(c6_transport_decoder (Sitemapper.deadEnv "https://a.example") _ _ _).1
      (by decide) (by decide),
   ((c6_transport_decoder (Sitemapper.deadEnv "https://a.example") _ _ _).2
      (Or.inr (by decide))).1 (by decide)⟩

namespace Sitemapper

/-! ## Resource-bound preservation (claim C1) -/

theorem bounds_errOnly {st st' : CrawlState} (h : ErrOnly st st') (hb : Bounds st) :
    Bounds st' := by
  obtain ⟨E, he⟩ := h
  subst he
  exact hb

theorem bounds_pushError {st : CrawlState} {m : String} (hb : Bounds st) :
    Bounds (pushError st m) := by
  unfold Bounds at *
  simp [hb.1, hb.2]

theorem bounds_pushTried {st : CrawlState} {u : String} {s : Nat} {e : Option String}
    (hb : Bounds st) : Bounds (pushTried st u s e) := by
  unfold Bounds at *
  simp [hb.1, hb.2]

theorem bounds_markTruncated {st : CrawlState} (hb : Bounds st) :
    Bounds (markTruncated st) := by
  unfold Bounds at *
  simp [hb.1, hb.2]

theorem setAdd_length (l : List String) (s : String) :
    (setAdd l s).length ≤ l.length + 1 := by
  unfold setAdd
  split
  · omega
  · simp

theorem addUrlsLoop_bounds : ∀ (locs : List String) (st : CrawlState),
    Bounds st → Bounds (addUrlsLoop st locs) := by
  intro locs
  induction locs with
  | nil => intro st hb; exact hb
  | cons loc rest ih =>
    intro st hb
    unfold addUrlsLoop
    split
    · exact bounds_markTruncated hb
    · next hcap =>
      split
      · exact ih st hb
      · apply ih
        constructor
        · exact hb.1
        · show (setAdd st.urls _).length ≤ st.limits.maxUrlsStored
          have h1 := setAdd_length st.urls (by assumption)
          omega

theorem crawlChildrenAux_bounds (step : String → CrawlState → CrawlState)
    (hstep : ∀ c s, Bounds s → Bounds (step c s)) :
    ∀ (locs : List String) (st : CrawlState),
      Bounds st → Bounds (crawlChildrenAux step locs st) := by
  intro locs
  induction locs with
  | nil => intro st hb; exact hb
  | cons c rest ih =>
    intro st hb
    unfold crawlChildrenAux
    split
    · exact bounds_pushError hb
    · dsimp only
      split
      · exact bounds_markTruncated (hstep c st hb)
      · exact ih _ (hstep c st hb)

theorem crawlNode_bounds (env : Env) (recurse : String → CrawlState → CrawlState)
    (hrec : ∀ c s, Bounds s → Bounds (recurse c s))
    (url : String) (depth : Nat) (st : CrawlState) (hb : Bounds st) :
    Bounds (crawlNode env recurse url depth st) := by
  unfold crawlNode
  split
  · exact bounds_pushError hb
  · split
    · exact bounds_pushTried (bounds_pushError hb)
    · next sitemapUrl heq =>
      split
      · exact hb
      · split
        · exact bounds_pushError hb
        · next hguard =>
          try dsimp only
          have hb1 : Bounds { st with
              visitedSitemaps := st.visitedSitemaps ++ [sitemapUrl],
              sitemapsFetched := st.sitemapsFetched + 1 } := by
            refine ⟨?_, hb.2⟩
            show st.sitemapsFetched + 1 ≤ st.limits.maxSitemapsFetched
            omega
          split
          · exact bounds_pushError (bounds_pushTried hb1)
          · next res hfetch =>
            try dsimp only
            split
            · exact bounds_pushError (bounds_pushTried hb1)
            · rcases hrt : responseToSitemapText env res sitemapUrl
                (pushTried { st with
                  visitedSitemaps := st.visitedSitemaps ++ [sitemapUrl],
                  sitemapsFetched := st.sitemapsFetched + 1 } sitemapUrl res.status none)
                with ⟨o, st3⟩
              have hb3 : Bounds st3 := by
                have herr := respText_snd env res sitemapUrl
                  (pushTried { st with
                    visitedSitemaps := st.visitedSitemaps ++ [sitemapUrl],
                    sitemapsFetched := st.sitemapsFetched + 1 } sitemapUrl res.status none)
                rw [hrt] at herr
                exact bounds_errOnly herr (bounds_pushTried hb1)
              cases o with
              | none => exact hb3
              | some x =>
                try dsimp only
                split
                · exact hb3
                · rcases hpx : parseSitemapXml env x sitemapUrl st3 with ⟨po, st4⟩
                  have hb4 : Bounds st4 := by
                    have herr := parseSitemapXml_snd env x sitemapUrl st3
                    rw [hpx] at herr
                    exact bounds_errOnly herr hb3
                  cases po with
                  | none => exact hb4
                  | some parsed =>
                    try dsimp only
                    set st5 := (if st4.primarySitemapUrl.isNone = true then
                        { st4 with primarySitemapUrl := some sitemapUrl } else st4) with hst5
                    have hb5 : Bounds st5 := by
                      rw [hst5]
                      split
                      · exact ⟨hb4.1, hb4.2⟩
                      · exact hb4
                    cases hk : parsed.kind
                    case urlset => exact addUrlsLoop_bounds parsed.locs st5 hb5
                    case sitemapindex =>
                      try dsimp only
                      split
                      · exact bounds_pushError hb5
                      · exact crawlChildrenAux_bounds recurse hrec parsed.locs st5 hb5

theorem fetch_bounds (env : Env) : ∀ (fuel : Nat) (url : String) (depth : Nat)
    (st : CrawlState), Bounds st → Bounds (fetchAndParseSitemap env fuel url depth st) := by
  intro fuel
  induction fuel with
  | zero =>
    intro url depth st hb
    rw [fetch_zero]
    exact crawlNode_bounds env _ (fun _ _ hs => hs) url depth st hb
  | succ f ih =>
    intro url depth st hb
    rw [fetch_succ]
    exact crawlNode_bounds env _ (fun c s hs => ih c (depth + 1) s hs) url depth st hb

theorem candidateLoop_bounds (env : Env) : ∀ (cands : List String) (st : CrawlState),
    Bounds st → Bounds (candidateLoop env cands st) := by
  intro cands
  induction cands with
  | nil => intro st hb; exact hb
  | cons c rest ih =>
    intro st hb
    unfold candidateLoop
    split
    · exact bounds_pushError hb
    · exact ih _ (fetch_bounds env _ c 0 st hb)

end Sitemapper

/-- C1: starting from any state within the resource bounds, both
`fetchAndParseSitemap` and the top-level candidate loop keep
`sitemapsFetched ≤ maxSitemapsFetched` and `urls.size ≤ maxUrlsStored`;
since both invariants hold of the initial state and are preserved by every
step, they hold throughout every run of the crawler. -/
theorem c1_resource_bounds (env : Sitemapper.Env) (st : Sitemapper.CrawlState)
    (hb : Sitemapper.Bounds st) :
    (∀ fuel url depth,
      Sitemapper.Bounds (Sitemapper.fetchAndParseSitemap env fuel url depth st)) ∧
    (∀ cands, Sitemapper.Bounds (Sitemapper.candidateLoop env cands st)) :=
  ⟨fun fuel url depth => Sitemapper.fetch_bounds env fuel url depth st hb,
   fun cands => Sitemapper.candidateLoop_bounds env cands st hb⟩

/-- C1 witness: the bounds hold after crawling a concrete oversized urlset
from an in-bounds state, and after a concrete candidate loop. -/
theorem c1_resource_bounds_witness :
    Sitemapper.Bounds Sitemapper.stCap ∧
    Sitemapper.Bounds (Sitemapper.fetchAndParseSitemap Sitemapper.envTen 4
      "https://cap.example/big.xml" 0 Sitemapper.stCap) ∧
    Sitemapper.Bounds (Sitemapper.candidateLoop Sitemapper.envTen
      ["https://cap.example/big.xml"] Sitemapper.stCap) :=
  ⟨by decide,
   (c1_resource_bounds Sitemapper.envTen Sitemapper.stCap (by decide)).1 4
     "https://cap.example/big.xml" 0,
   (c1_resource_bounds Sitemapper.envTen Sitemapper.stCap (by decide)).2
     ["https://cap.example/big.xml"]⟩

namespace Sitemapper

/-! ## Primary-URL invariant (claim C10) -/

theorem primInv_errOnly {st st' : CrawlState} (h : ErrOnly st st') (hp : PrimInv st) :
    PrimInv st' := by
  obtain ⟨E, he⟩ := h
  subst he
  exact hp

theorem primInv_pushError {st : CrawlState} {m : String} (hp : PrimInv st) :
    PrimInv (pushError st m) := by
  unfold PrimInv at *
  simpa using hp

theorem primInv_pushTried {st : CrawlState} {u : String} {s : Nat} {e : Option String}
    (hp : PrimInv st) : PrimInv (pushTried st u s e) := by
  unfold PrimInv at *
  simpa using hp

theorem primInv_markTruncated {st : CrawlState} (hp : PrimInv st) :
    PrimInv (markTruncated st) := by
  unfold PrimInv at *
  simpa using hp

theorem addUrlsLoop_primary : ∀ (locs : List String) (st : CrawlState),
    (addUrlsLoop st locs).primarySitemapUrl = st.primarySitemapUrl := by
  intro locs
  induction locs with
  | nil => intro st; rfl
  | cons loc rest ih =>
    intro st
    unfold addUrlsLoop
    split
    · simp
    · split
      · exact ih st
      · rw [ih]

theorem crawlChildrenAux_primInv (step : String → CrawlState → CrawlState)
    (hstep : ∀ c s, PrimInv s → PrimInv (step c s)) :
    ∀ (locs : List String) (st : CrawlState),
      PrimInv st → PrimInv (crawlChildrenAux step locs st) := by
  intro locs
  induction locs with
  | nil => intro st hp; exact hp
  | cons c rest ih =>
    intro st hp
    unfold crawlChildrenAux
    split
    · exact primInv_pushError hp
    · try dsimp only
      split
      · exact primInv_markTruncated (hstep c st hp)
      · exact ih _ (hstep c st hp)

theorem crawlNode_primInv (env : Env) (recurse : String → CrawlState → CrawlState)
    (hrec : ∀ c s, PrimInv s → PrimInv (recurse c s))
    (url : String) (depth : Nat) (st : CrawlState) (hp : PrimInv st) :
    PrimInv (crawlNode env recurse url depth st) := by
  unfold crawlNode
  split
  · exact primInv_pushError hp
  · split
    · exact primInv_pushTried (primInv_pushError hp)
    · next sitemapUrl heq =>
      split
      · exact hp
      · split
        · exact primInv_pushError hp
        · next hguard =>
          try dsimp only
          have hp1 : PrimInv { st with
              visitedSitemaps := st.visitedSitemaps ++ [sitemapUrl],
              sitemapsFetched := st.sitemapsFetched + 1 } := hp
          split
          · exact primInv_pushError (primInv_pushTried hp1)
          · next res hfetch =>
            try dsimp only
            split
            · exact primInv_pushError (primInv_pushTried hp1)
            · rcases hrt : responseToSitemapText env res sitemapUrl
                (pushTried { st with
                  visitedSitemaps := st.visitedSitemaps ++ [sitemapUrl],
                  sitemapsFetched := st.sitemapsFetched + 1 } sitemapUrl res.status none)
                with ⟨o, st3⟩
              have hp3 : PrimInv st3 := by
                have herr := respText_snd env res sitemapUrl
                  (pushTried { st with
                    visitedSitemaps := st.visitedSitemaps ++ [sitemapUrl],
                    sitemapsFetched := st.sitemapsFetched + 1 } sitemapUrl res.status none)
                rw [hrt] at herr
                exact primInv_errOnly herr (primInv_pushTried hp1)
              cases o with
              | none => exact hp3
              | some x =>
                try dsimp only
                split
                · exact hp3
                · rcases hpx : parseSitemapXml env x sitemapUrl st3 with ⟨po, st4⟩
                  have hp4 : PrimInv st4 := by
                    have herr := parseSitemapXml_snd env x sitemapUrl st3
                    rw [hpx] at herr
                    exact primInv_errOnly herr hp3
                  cases po with
                  | none => exact hp4
                  | some parsed =>
                    try dsimp only
                    set st5 := (if st4.primarySitemapUrl.isNone = true then
                        { st4 with primarySitemapUrl := some sitemapUrl } else st4) with hst5
                    have hp5 : st5.primarySitemapUrl.isSome = true := by
                      rw [hst5]
                      split
                      · rfl
                      · next hno =>
                        cases ho : st4.primarySitemapUrl with
                        | none => (try rw [ho] at hno); simp at hno
                        | some v => rfl
                    cases hk : parsed.kind
                    case urlset =>
                      right
                      rw [addUrlsLoop_primary]
                      exact hp5
                    case sitemapindex =>
                      try dsimp only
                      split
                      · exact primInv_pushError (Or.inr hp5)
                      · exact crawlChildrenAux_primInv recurse hrec parsed.locs st5 (Or.inr hp5)

theorem fetch_primInv (env : Env) : ∀ (fuel : Nat) (url : String) (depth : Nat)
    (st : CrawlState), PrimInv st → PrimInv (fetchAndParseSitemap env fuel url depth st) := by
  intro fuel
  induction fuel with
  | zero =>
    intro url depth st hp
    rw [fetch_zero]
    exact crawlNode_primInv env _ (fun _ _ hs => hs) url depth st hp
  | succ f ih =>
    intro url depth st hp
    rw [fetch_succ]
    exact crawlNode_primInv env _ (fun c s hs => ih c (depth + 1) s hs) url depth st hp

theorem candidateLoop_primInv (env : Env) : ∀ (cands : List String) (st : CrawlState),
    PrimInv st → PrimInv (candidateLoop env cands st) := by
  intro cands
  induction cands with
  | nil => intro st hp; exact hp
  | cons c rest ih =>
    intro st hp
    unfold candidateLoop
    split
    · exact primInv_pushError hp
    · exact ih _ (fetch_primInv env _ c 0 st hp)

theorem robotsPhase_primInv (env : Env) (st : CrawlState) (hp : PrimInv st) :
    PrimInv (robotsPhase env st).2 := by
  unfold robotsPhase
  dsimp only
  split
  · exact primInv_pushError (primInv_pushTried hp)
  · try dsimp only
    split
    · exact primInv_pushTried hp
    · exact primInv_pushError (primInv_pushTried hp)

theorem assembleRecord_iff (env : Env) (st : CrawlState) (hp : PrimInv st) :
    ((assembleRecord env st).sitemapUrl ≠ none ↔ (assembleRecord env st).found = true) := by
  unfold assembleRecord
  dsimp only
  by_cases hf : 0 < (st.urls.take st.limits.maxUrlsStored).length
  · have hfound : decide (0 < (st.urls.take st.limits.maxUrlsStored).length) = true :=
      decide_eq_true hf
    rw [hfound, if_pos rfl]
    have hne : st.urls ≠ [] := by
      intro hnil
      rw [hnil] at hf
      simp at hf
    rcases hp with hnil | hsome
    · exact absurd hnil hne
    · simp [Option.isSome_iff_ne_none.mp hsome]
  · have hfound : decide (0 < (st.urls.take st.limits.maxUrlsStored).length) = false :=
      decide_eq_false hf
    rw [hfound, if_neg (by simp)]
    simp

theorem scanCore_iff (env : Env) (st : CrawlState) (hp : PrimInv st) :
    ((scanCore env st).sitemapUrl ≠ none ↔ (scanCore env st).found = true) := by
  unfold scanCore
  rcases hrp : robotsPhase env st with ⟨robots, st1⟩
  have hp1 : PrimInv st1 := by
    have := robotsPhase_primInv env st hp
    rw [hrp] at this
    exact this
  try dsimp only
  exact assembleRecord_iff env _ (candidateLoop_primInv env _ st1 hp1)

theorem initState_primInv (origin : String) : PrimInv (initState origin) :=
  Or.inl rfl

end Sitemapper

/-- C10: in every record written by a scan, `sitemapUrl` is non-null exactly
when `found` is true: a truthy `found` guarantees a primary sitemap URL was
recorded before any URL was stored, and a falsy `found` persists a null
`sitemapUrl` even if some sitemap document was parsed successfully. -/
theorem c10_found_iff_sitemapUrl (env : Sitemapper.Env) (rec : Sitemapper.PersistedRecord)
    (h : Sitemapper.scanAndStore env = some rec) :
    rec.sitemapUrl ≠ none ↔ rec.found = true := by
  unfold Sitemapper.scanAndStore at h
  split at h
  · simp at h
  · split at h
    · split at h
      · simp at h
      · injection h with h
        subst h
        exact Sitemapper.scanCore_iff env _ (Sitemapper.initState_primInv _)
    · injection h with h
      subst h
      exact Sitemapper.scanCore_iff env _ (Sitemapper.initState_primInv _)
    · injection h with h
      subst h
      exact Sitemapper.scanCore_iff env _
        (Sitemapper.primInv_pushError (Sitemapper.initState_primInv _))

/-- C10 witness: the equivalence holds of the record produced by a concrete
scan in which every fetch fails (`found = false`, `sitemapUrl = none`). -/
theorem c10_found_iff_sitemapUrl_witness :
    ((Sitemapper.scanAndStore (Sitemapper.deadEnv "https://f.example")).getD
        Sitemapper.dRec).sitemapUrl ≠ none ↔
    ((Sitemapper.scanAndStore (Sitemapper.deadEnv "https://f.example")).getD
        Sitemapper.dRec).found = true :=
  c10_found_iff_sitemapUrl (Sitemapper.deadEnv "https://f.example")
    ((Sitemapper.scanAndStore (Sitemapper.deadEnv "https://f.example")).getD Sitemapper.dRec)
    (by decide)

namespace Sitemapper

/-! ## Robots fallback (claim C7) -/

theorem errMsg_ne (m : String) : errMsg m ≠ "" := by
  unfold errMsg
  split
  · decide
  · assumption

theorem dedupAux_eq_of_nodup : ∀ (l seen : List String),
    l.Nodup → (∀ x ∈ l, x ∉ seen) → dedupAux seen l = l := by
  intro l
  induction l with
  | nil => intro seen _ _; rfl
  | cons x xs ih =>
    intro seen hnd hseen
    unfold dedupAux
    rw [if_neg (by simp; exact hseen x (List.mem_cons_self x xs))]
    congr 1
    apply ih
    · exact (List.nodup_cons.mp hnd).2
    · intro y hy
      simp only [List.mem_append, List.mem_singleton]
      rintro (hc | hc)
      · exact hseen y (List.mem_cons_of_mem x hy) hc
      · exact (List.nodup_cons.mp hnd).1 (hc ▸ hy)

theorem str_append_right_inj (o s t : String) (h : o ++ s = o ++ t) : s = t := by
  have hd := congrArg String.data h
  rw [str_append_data, str_append_data] at hd
  have h2 := List.append_cancel_left hd
  cases s
  cases t
  exact congrArg String.mk (by simpa using h2)

theorem nodup_candidates (origin : String) : (candidateSitemapUrls origin).Nodup := by
  have hne : ∀ s t : String, s ≠ t → origin ++ s ≠ origin ++ t :=
    fun s t h hc => h (str_append_right_inj origin s t hc)
  unfold candidateSitemapUrls
  simp only [List.nodup_cons, List.mem_cons, List.not_mem_nil, or_false, not_or,
    List.nodup_nil, and_true, List.mem_singleton]
  repeat' apply And.intro
  all_goals first
    | exact hne _ _ (by decide)
    | trivial

theorem dedup_candidates (origin : String) :
    dedupList (candidateSitemapUrls origin) = candidateSitemapUrls origin :=
  dedupAux_eq_of_nodup _ [] (nodup_candidates origin) (by intro x _; simp)

theorem robotsPhase_failure (env : Env) (st : CrawlState) (e : String)
    (h : env.fetch (env.origin ++ "/robots.txt") = .failure e) :
    robotsPhase env st =
      ([], pushError (pushTried st (env.origin ++ "/robots.txt") 0 (some (errMsg e)))
        ("robots.txt fetch failed: " ++ errMsg e)) := by
  unfold robotsPhase
  dsimp only
  rw [h]

theorem robotsPhase_notOk (env : Env) (st : CrawlState) (r : HttpResponse)
    (h : env.fetch (env.origin ++ "/robots.txt") = .success r) (hok : resOk r = false) :
    robotsPhase env st =
      ([], pushError (pushTried st (env.origin ++ "/robots.txt") r.status none)
        ("robots.txt fetch failed " ++ Nat.repr r.status ++ ".")) := by
  unfold robotsPhase
  dsimp only
  rw [h]
  dsimp only
  rw [if_neg (by simp [hok])]

theorem robotsPhase_ok (env : Env) (st : CrawlState) (r : HttpResponse)
    (h : env.fetch (env.origin ++ "/robots.txt") = .success r) (hok : resOk r = true) :
    robotsPhase env st =
      ((parseRobotsForSitemaps r.bodyText).filterMap
          (fun s => safeUrlStr s (some env.origin)),
        pushTried st (env.origin ++ "/robots.txt") r.status none) := by
  unfold robotsPhase
  dsimp only
  rw [h]
  dsimp only
  rw [if_pos hok]

theorem scanCore_fallback (env : Env) (st : CrawlState)
    (hempty : (robotsPhase env st).1 = []) :
    scanCore env st = assembleRecord env (candidateLoop env
      (dedupList (candidateSitemapUrls env.origin)) (robotsPhase env st).2) := by
  unfold scanCore
  rcases hrp : robotsPhase env st with ⟨robots, st1⟩
  rw [hrp] at hempty
  dsimp only at hempty
  subst hempty
  rfl

end Sitemapper

/-- C7: whenever the robots.txt fetch fails (thrown or non-2xx) or yields no
usable Sitemap directives, the robots phase produces no candidates and (in
the failure cases) appends exactly one robots diagnostic, and the scan then
proceeds with the fixed ordered fallback list `/sitemap.xml`,
`/sitemap_index.xml`, `/sitemap-index.xml` and their `.gz` variants resolved
against the origin; the robots failure never terminates the scan. -/
theorem c7_robots_fallback (env : Sitemapper.Env) (st : Sitemapper.CrawlState) :
    (∀ e, env.fetch (env.origin ++ "/robots.txt") = Sitemapper.FetchResult.failure e →
      (Sitemapper.robotsPhase env st).1 = [] ∧
      (Sitemapper.robotsPhase env st).2.errors =
        st.errors ++ ["robots.txt fetch failed: " ++ Sitemapper.errMsg e]) ∧
    (∀ r, env.fetch (env.origin ++ "/robots.txt") = Sitemapper.FetchResult.success r →
      Sitemapper.resOk r = false →
      (Sitemapper.robotsPhase env st).1 = [] ∧
      (Sitemapper.robotsPhase env st).2.errors =
        st.errors ++ ["robots.txt fetch failed " ++ Nat.repr r.status ++ "."]) ∧
    (∀ r, env.fetch (env.origin ++ "/robots.txt") = Sitemapper.FetchResult.success r →
      Sitemapper.resOk r = true →
      (Sitemapper.parseRobotsForSitemaps r.bodyText).filterMap
        (fun s => Sitemapper.safeUrlStr s (some env.origin)) = [] →
      (Sitemapper.robotsPhase env st).1 = []) ∧
    ((Sitemapper.robotsPhase env st).1 = [] →
      Sitemapper.scanCore env st = Sitemapper.assembleRecord env
        (Sitemapper.candidateLoop env (Sitemapper.candidateSitemapUrls env.origin)
          (Sitemapper.robotsPhase env st).2)) ∧
    Sitemapper.dedupList (Sitemapper.candidateSitemapUrls env.origin) =
      Sitemapper.candidateSitemapUrls env.origin ∧
    Sitemapper.candidateSitemapUrls env.origin =
      [ env.origin ++ "/sitemap.xml", env.origin ++ "/sitemap_index.xml"
      , env.origin ++ "/sitemap-index.xml", env.origin ++ "/sitemap.xml.gz"
      , env.origin ++ "/sitemap-index.xml.gz", env.origin ++ "/sitemap_index.xml.gz" ] := by
  refine ⟨?_, ?_, ?_, ?_, Sitemapper.dedup_candidates env.origin, rfl⟩
  · intro e he
    rw [Sitemapper.robotsPhase_failure env st e he]
    refine ⟨rfl, ?_⟩
    rw [Sitemapper.pushError_eq_of_ne
      (Sitemapper.str_append_ne_empty_right _ _ (Sitemapper.errMsg_ne e))]
    simp
  · intro r hr hok
    rw [Sitemapper.robotsPhase_notOk env st r hr hok]
    refine ⟨rfl, ?_⟩
    rw [Sitemapper.pushError_eq_of_ne
      (Sitemapper.str_append_ne_empty_right _ _ (by decide))]
    simp
  · intro r hr hok hnone
    rw [Sitemapper.robotsPhase_ok env st r hr hok]
    exact hnone
  · intro hempty
    rw [Sitemapper.scanCore_fallback env st hempty, Sitemapper.dedup_candidates]

/-- C7 witness: in a world where every fetch throws, the robots phase yields
no candidates and one diagnostic, and the scan proceeds to the six fallback
candidates. -/
theorem c7_robots_fallback_witness :
    ((Sitemapper.robotsPhase (Sitemapper.deadEnv "https://f.example")
        (Sitemapper.initState "https://f.example")).1 = [] ∧
      (Sitemapper.robotsPhase (Sitemapper.deadEnv "https://f.example")
        (Sitemapper.initState "https://f.example")).2.errors =
        (Sitemapper.initState "https://f.example").errors ++
          ["robots.txt fetch failed: " ++ Sitemapper.errMsg "network unreachable"]) ∧
    Sitemapper.scanCore (Sitemapper.deadEnv "https://f.example")
        (Sitemapper.initState "https://f.example") =
      Sitemapper.assembleRecord (Sitemapper.deadEnv "https://f.example")
        (Sitemapper.candidateLoop (Sitemapper.deadEnv "https://f.example")
          (Sitemapper.candidateSitemapUrls "https://f.example")
          (Sitemapper.robotsPhase (Sitemapper.deadEnv "https://f.example")
            (Sitemapper.initState "https://f.example")).2) :=
  ⟨(c7_robots_fallback (Sitemapper.deadEnv "https://f.example")
      (Sitemapper.initState "https://f.example")).1 "network unreachable" rfl,
   (c7_robots_fallback (Sitemapper.deadEnv "https://f.example")
      (Sitemapper.initState "https://f.example")).2.2.2.1 (by decide)⟩

/-- C8 counterexample: a robots.txt-derived `Sitemap` directive that fails to
resolve (`http://`) is silently dropped by `scanAndStore` — the run finishes
with an *empty* errors list, so no diagnostic is recorded for it, contrary to
the claim. -/
theorem c8_unresolvable_counterexample :
    Sitemapper.parseRobotsForSitemaps "Sitemap: http://\nSitemap: https://e.x/s.xml" =
      ["http://", "https://e.x/s.xml"] ∧
    Sitemapper.safeUrlStr "http://" (some "https://e.x") = none ∧
    (Sitemapper.scanAndStore Sitemapper.envBadDir).isSome = true ∧
    ((Sitemapper.scanAndStore Sitemapper.envBadDir).getD Sitemapper.dRec).errors = [] := by
  decide

/-- C8 (amended): an unresolvable `<loc>` entry of a sitemap document is
skipped with an `Invalid <loc>` diagnostic and processing continues with the
remaining entries; an unresolvable robots.txt-derived sitemap directive is
skipped *silently* (filtered out with no diagnostic) and is likewise not
fatal to the run. -/
theorem c8_unresolvable_entries (sitemapUrl : String) :
    (∀ (t : Option String) (rest : List (Option String)) (st : Sitemapper.CrawlState)
        (raw : String),
      t.map Sitemapper.trimStr = some raw → raw ≠ "" →
      Sitemapper.safeUrlStr raw (some sitemapUrl) = none →
      Sitemapper.collectLocs sitemapUrl (t :: rest) st =
        Sitemapper.collectLocs sitemapUrl rest
          (Sitemapper.pushError st ("Invalid <loc> in " ++ sitemapUrl ++ ": " ++ raw))) ∧
    (∀ (origin : String) (pre post : List String) (bad : String),
      Sitemapper.safeUrlStr bad (some origin) = none →
      (pre ++ bad :: post).filterMap (fun s => Sitemapper.safeUrlStr s (some origin)) =
        (pre ++ post).filterMap (fun s => Sitemapper.safeUrlStr s (some origin))) := by
  constructor
  · intro t rest st raw hmap hraw hurl
    cases t with
    | none => simp at hmap
    | some s =>
      simp only [Option.map] at hmap
      injection hmap with hmap
      subst hmap
      conv_lhs => rw [Sitemapper.collectLocs]
      dsimp only [Option.map]
      rw [if_neg hraw, hurl]
  · intro origin pre post bad hbad
    induction pre with
    | nil => simp [List.filterMap_cons, hbad]
    | cons a pre2 ih => simp [List.filterMap_cons, ih]

/-- C8 amended-claim witness: a concrete unresolvable `<loc>` is skipped with
its diagnostic, and a concrete unresolvable robots directive drops out of the
resolved list silently. -/
theorem c8_unresolvable_entries_witness :
    Sitemapper.collectLocs "https://e.x/s.xml" [some "http://"]
        (Sitemapper.initState "https://e.x") =
      Sitemapper.collectLocs "https://e.x/s.xml" []
        (Sitemapper.pushError (Sitemapper.initState "https://e.x")
          ("Invalid <loc> in https://e.x/s.xml: http://")) ∧
    (["http://", "https://e.x/p"].filterMap
        (fun s => Sitemapper.safeUrlStr s (some "https://e.x")) =
      (["https://e.x/p"] : List String).filterMap
        (fun s => Sitemapper.safeUrlStr s (some "https://e.x"))) :=
  ⟨(c8_unresolvable_entries "https://e.x/s.xml").1 (some "http://") []
      (Sitemapper.initState "https://e.x") "http://" (by decide) (by decide) (by decide),
   (c8_unresolvable_entries "https://e.x/s.xml").2 "https://e.x" [] ["https://e.x/p"]
      "http://" (by decide)⟩

namespace Sitemapper

/-! ## Fuel adequacy

The source recursion is unbounded but guarded by
`depth >= state.limits.maxDepth`; the following lemmas show the fuel
parameter of the embedding is irrelevant as soon as it exceeds
`maxDepth - depth`, so the embedding with fuel `maxDepth + 1` computes the
same function as the unbounded recursion. -/

theorem addUrlsLoop_limits : ∀ (locs : List String) (st : CrawlState),
    (addUrlsLoop st locs).limits = st.limits := by
  intro locs
  induction locs with
  | nil => intro st; rfl
  | cons loc rest ih =>
    intro st
    unfold addUrlsLoop
    split
    · simp
    · split
      · exact ih st
      · rw [ih]

theorem crawlChildrenAux_limits (step : String → CrawlState → CrawlState)
    (hstep : ∀ c s, (step c s).limits = s.limits) :
    ∀ (locs : List String) (st : CrawlState),
      (crawlChildrenAux step locs st).limits = st.limits := by
  intro locs
  induction locs with
  | nil => intro st; rfl
  | cons c rest ih =>
    intro st
    unfold crawlChildrenAux
    split
    · simp
    · try dsimp only
      split
      · rw [markTruncated_limits, hstep]
      · rw [ih, hstep]

theorem crawlNode_limits (env : Env) (recurse : String → CrawlState → CrawlState)
    (hrec : ∀ c s, (recurse c s).limits = s.limits)
    (url : String) (depth : Nat) (st : CrawlState) :
    (crawlNode env recurse url depth st).limits = st.limits := by
  unfold crawlNode
  split
  · simp
  · split
    · simp
    · next sitemapUrl heq =>
      split
      · rfl
      · split
        · simp
        · next hguard =>
          try dsimp only
          split
          · simp
          · next res hfetch =>
            try dsimp only
            split
            · simp
            · rcases hrt : responseToSitemapText env res sitemapUrl
                (pushTried { st with
                  visitedSitemaps := st.visitedSitemaps ++ [sitemapUrl],
                  sitemapsFetched := st.sitemapsFetched + 1 } sitemapUrl res.status none)
                with ⟨o, st3⟩
              have hl3 : st3.limits = st.limits := by
                have herr := respText_snd env res sitemapUrl
                  (pushTried { st with
                    visitedSitemaps := st.visitedSitemaps ++ [sitemapUrl],
                    sitemapsFetched := st.sitemapsFetched + 1 } sitemapUrl res.status none)
                rw [hrt] at herr
                rw [herr.limits]
                rfl
              cases o with
              | none => exact hl3
              | some x =>
                try dsimp only
                split
                · exact hl3
                · rcases hpx : parseSitemapXml env x sitemapUrl st3 with ⟨po, st4⟩
                  have hl4 : st4.limits = st.limits := by
                    have herr := parseSitemapXml_snd env x sitemapUrl st3
                    rw [hpx] at herr
                    rw [herr.limits]
                    exact hl3
                  cases po with
                  | none => exact hl4
                  | some parsed =>
                    try dsimp only
                    set st5 := (if st4.primarySitemapUrl.isNone = true then
                        { st4 with primarySitemapUrl := some sitemapUrl } else st4) with hst5
                    have hl5 : st5.limits = st.limits := by
                      rw [hst5]
                      split
                      · exact hl4
                      · exact hl4
                    cases hk : parsed.kind
                    case urlset => rw [addUrlsLoop_limits, hl5]
                    case sitemapindex =>
                      try dsimp only
                      split
                      · rw [pushError_limits, hl5]
                      · rw [crawlChildrenAux_limits recurse hrec, hl5]

theorem fetch_limits (env : Env) : ∀ (fuel : Nat) (url : String) (depth : Nat)
    (st : CrawlState),
    (fetchAndParseSitemap env fuel url depth st).limits = st.limits := by
  intro fuel
  induction fuel with
  | zero =>
    intro url depth st
    rw [fetch_zero]
    exact crawlNode_limits env _ (fun _ _ => rfl) url depth st
  | succ f ih =>
    intro url depth st
    rw [fetch_succ]
    exact crawlNode_limits env _ (fun c s => ih c (depth + 1) s) url depth st

end Sitemapper

namespace Sitemapper

theorem crawlChildrenAux_congr (r1 r2 : String → CrawlState → CrawlState) (L : Limits)
    (heq : ∀ c s, s.limits = L → r1 c s = r2 c s)
    (hpres : ∀ c s, (r1 c s).limits = s.limits) :
    ∀ (locs : List String) (st : CrawlState), st.limits = L →
      crawlChildrenAux r1 locs st = crawlChildrenAux r2 locs st := by
  intro locs
  induction locs with
  | nil => intro st _; rfl
  | cons c rest ih =>
    intro st hL
    unfold crawlChildrenAux
    split
    · rfl
    · try dsimp only
      rw [← heq c st hL]
      split
      · rfl
      · exact ih (r1 c st) (by rw [hpres c st, hL])

theorem crawlNode_congr (env : Env) (r1 r2 : String → CrawlState → CrawlState) (L : Limits)
    (heq : ∀ c s, s.limits = L → r1 c s = r2 c s)
    (hpres : ∀ c s, (r1 c s).limits = s.limits)
    (url : String) (depth : Nat) (st : CrawlState) (hL : st.limits = L) :
    crawlNode env r1 url depth st = crawlNode env r2 url depth st := by
  unfold crawlNode
  split
  · rfl
  · split
    · rfl
    · next sitemapUrl hres =>
      split
      · rfl
      · split
        · rfl
        · next hguard =>
          try dsimp only
          split
          · rfl
          · next res hfetch =>
            try dsimp only
            split
            · rfl
            · rcases hrt : responseToSitemapText env res sitemapUrl
                (pushTried { st with
                  visitedSitemaps := st.visitedSitemaps ++ [sitemapUrl],
                  sitemapsFetched := st.sitemapsFetched + 1 } sitemapUrl res.status none)
                with ⟨o, st3⟩
              have hl3 : st3.limits = L := by
                have herr := respText_snd env res sitemapUrl
                  (pushTried { st with
                    visitedSitemaps := st.visitedSitemaps ++ [sitemapUrl],
                    sitemapsFetched := st.sitemapsFetched + 1 } sitemapUrl res.status none)
                rw [hrt] at herr
                rw [herr.limits]
                exact hL
              cases o with
              | none => rfl
              | some x =>
                try dsimp only
                split
                · rfl
                · rcases hpx : parseSitemapXml env x sitemapUrl st3 with ⟨po, st4⟩
                  have hl4 : st4.limits = L := by
                    have herr := parseSitemapXml_snd env x sitemapUrl st3
                    rw [hpx] at herr
                    rw [herr.limits]
                    exact hl3
                  cases po with
                  | none => rfl
                  | some parsed =>
                    try dsimp only
                    set st5 := (if st4.primarySitemapUrl.isNone = true then
                        { st4 with primarySitemapUrl := some sitemapUrl } else st4) with hst5
                    have hl5 : st5.limits = L := by
                      rw [hst5]
                      split
                      · exact hl4
                      · exact hl4
                    cases hk : parsed.kind
                    case urlset => rfl
                    case sitemapindex =>
                      try dsimp only
                      split
                      · rfl
                      · exact crawlChildrenAux_congr r1 r2 L heq hpres parsed.locs st5 hl5

/-- The fuel of the embedding is irrelevant once it exceeds
`maxDepth - depth`; in particular the canonical fuel `maxDepth + 1` used by
every caller computes the crawl of the unbounded source recursion. -/
theorem fetch_fuel_irrelevant (env : Env) : ∀ (f1 f2 : Nat) (url : String) (depth : Nat)
    (st : CrawlState),
    st.limits.maxDepth < depth + f1 → st.limits.maxDepth < depth + f2 →
    fetchAndParseSitemap env f1 url depth st = fetchAndParseSitemap env f2 url depth st := by
  intro f1
  induction f1 with
  | zero =>
    intro f2 url depth st h1 h2
    have hd : st.limits.maxDepth < depth := by omega
    rw [fetch_depth_guard env 0 url depth st hd, fetch_depth_guard env f2 url depth st hd]
  | succ a ih =>
    intro f2 url depth st h1 h2
    cases f2 with
    | zero =>
      have hd : st.limits.maxDepth < depth := by omega
      rw [fetch_depth_guard env _ url depth st hd, fetch_depth_guard env _ url depth st hd]
    | succ b =>
      rw [fetch_succ, fetch_succ]
      apply crawlNode_congr env _ _ st.limits ?_ ?_ url depth st rfl
      · intro c s hs
        apply ih b c (depth + 1) s
        · rw [hs]; omega
        · rw [hs]; omega
      · intro c s
        exact fetch_limits env a c (depth + 1) s

end Sitemapper
